import Mathlib

/-!
Verification development for the check-cx health dashboard.

This file gives a shallow embedding of the health-check + snapshot-caching core
of the repository (src/lib/database/history.ts, src/lib/core/health-snapshot-service.ts,
src/lib/core/dashboard-data.ts, the frontend SWR cache) and proves the testable
properties of its specification against that embedding.

Modelling conventions:
- JavaScript objects become structures; the field order of object literals is
  preserved (it matters for JSON serialization).
- `HistorySnapshot` (a JS object used as a map from config id to an array of
  results) becomes an association list in key-insertion order, matching
  `Object.entries` / `Object.keys` semantics for string keys.
- Awaited external collaborators (Supabase queries, leadership election,
  provider probes, `Date.now()`) become explicit oracle parameters.
- `new Date(s).getTime()` becomes an explicit `parseDate : String → Int`
  parameter; ISO timestamps are kept as strings as in the source.
- JavaScript's stable `Array.prototype.sort(cmp)` becomes `List.mergeSort`
  with the boolean ordering `cmp a b ≤ 0`, which is the sortedness/stability
  contract of the JS runtime sort.
- 32-bit signed JS arithmetic (`<<`, `^`, `>>> 0`) is modelled on `Nat`
  with explicit reduction modulo `2 ^ 32`.
-/

/-- Probe outcome status (the `CheckResult["status"]` union type). -/
inductive CheckStatus where
  | operational
  | degraded
  | validation_failed
  | failed
  | error
  | maintenance
deriving DecidableEq, Repr

/-- One monitored endpoint configuration (`ProviderConfig`), with the fields the
core reads: stable id, display name, provider type, endpoint, model, optional
group name and the maintenance flag (`is_maintenance` / `isMaintenance`). -/
structure ProviderConfig where
  id : String
  name : String
  type : String
  endpoint : String
  model : String
  groupName : Option String
  is_maintenance : Bool
deriving DecidableEq, Repr

/-- One probe outcome (`CheckResult`), fields in the order the source creates
them (`mapRowsToSnapshot`); `officialStatus` is the non-persisted read-time
enrichment, absent (`none`) unless attached. -/
structure CheckResult where
  id : String
  name : String
  type : String
  endpoint : String
  model : String
  status : CheckStatus
  latencyMs : Option Int
  pingLatencyMs : Option Int
  checkedAt : String
  message : String
  groupName : Option String
  officialStatus : Option String := none
deriving DecidableEq, Repr

/-- `HistorySnapshot`: map from config id to results, newest first.  A JS object
with string keys iterates in key-insertion order, so it is modelled as an
association list in insertion order. -/
abbrev HistorySnapshot := List (String × List CheckResult)

/-- The `RefreshMode` union type `"never" | "missing" | "always"`. -/
inductive RefreshMode where
  | never
  | missing
  | always
deriving DecidableEq, Repr

/-! ## src/lib/database/history.ts -/

/-- `MAX_POINTS_PER_PROVIDER`: maximum history points kept per provider. -/
def MAX_POINTS_PER_PROVIDER : Nat := 60

/-- Name of the optimized bounded-sampling read RPC. -/
def RPC_RECENT_HISTORY : String := "get_recent_check_history"

/-- Name of the retention-pruning RPC. -/
def RPC_PRUNE_HISTORY : String := "prune_check_history"

/-- A row returned by the `get_recent_check_history` RPC.  The source casts the
raw `status`/`type` strings into the `CheckResult` unions without validation,
so the casts are modelled as already-typed fields. -/
structure RpcHistoryRow where
  config_id : String
  status : CheckStatus
  latency_ms : Option Int
  ping_latency_ms : Option Int
  checked_at : String
  message : Option String
  name : String
  type : String
  model : String
  endpoint : Option String
  group_name : Option String
deriving DecidableEq, Repr

/-- A Postgrest error, of which the source only inspects `message`. -/
structure PostgrestError where
  message : String
deriving DecidableEq, Repr

/-- `isMissingFunctionError`: the error message mentions one of the two RPC
names. -/
def isMissingFunctionError (e : PostgrestError) : Bool :=
  decide (RPC_RECENT_HISTORY.toList <:+: e.message.toList) ||
  decide (RPC_PRUNE_HISTORY.toList <:+: e.message.toList)

/-- `history[result.id].push(result)`, creating `history[result.id] = []` first
when the key is absent: append to the entry for `id`, adding a new key at the
end on first occurrence (JS string keys iterate in insertion order). -/
def pushResult (h : HistorySnapshot) (id : String) (r : CheckResult) :
    HistorySnapshot :=
  match h with
  | [] => [(id, [r])]
  | (k, items) :: t =>
    if k = id then (k, items ++ [r]) :: t else (k, items) :: pushResult t id r

/-- The sort comparator `(a, b) => new Date(b.checkedAt).getTime() - new
Date(a.checkedAt).getTime()`: `a` stays before `b` iff the comparator is
`≤ 0`, i.e. iff `b` is not newer than `a`. -/
def newestFirst (parseDate : String → Int) (a b : CheckResult) : Bool :=
  decide (parseDate b.checkedAt ≤ parseDate a.checkedAt)

/-- The `CheckResult` built from one RPC row in `mapRowsToSnapshot`
(field-for-field, `endpoint ?? ""`, `message ?? ""`). -/
def rowToCheckResult (row : RpcHistoryRow) : CheckResult :=
  { id := row.config_id
    name := row.name
    type := row.type
    endpoint := row.endpoint.getD ""
    model := row.model
    status := row.status
    latencyMs := row.latency_ms
    pingLatencyMs := row.ping_latency_ms
    checkedAt := row.checked_at
    message := row.message.getD ""
    groupName := row.group_name
    officialStatus := none }

/-- `mapRowsToSnapshot(rows, limitPerConfig)`: group rows by `config_id`, then
sort every group newest first and cap it at `limitPerConfig`.  The `null` rows
case is folded into the empty list. -/
def mapRowsToSnapshot (parseDate : String → Int) (rows : List RpcHistoryRow)
    (limitPerConfig : Nat) : HistorySnapshot :=
  if rows = [] then []
  else
    let history := rows.foldl
      (fun h row => pushResult h (rowToCheckResult row).id (rowToCheckResult row)) []
    history.map fun e =>
      (e.1, (e.2.mergeSort (newestFirst parseDate)).take limitPerConfig)

/-- The nested `check_configs` record selected by the fallback table scan. -/
structure FallbackConfig where
  id : String
  name : String
  type : String
  model : String
  endpoint : String
  group_name : Option String
deriving DecidableEq, Repr

/-- One row of the fallback raw table scan over `check_history` (with the
joined `check_configs`). -/
structure FallbackRow where
  id : String
  config_id : String
  status : CheckStatus
  latency_ms : Option Int
  ping_latency_ms : Option Int
  checked_at : String
  message : Option String
  check_configs : List FallbackConfig
deriving DecidableEq, Repr

/-- The in-process part of `fallbackFetchSnapshot`: rows whose joined config
list is empty are skipped, the `CheckResult` is denormalized from
`configs[0]`, then each group is sorted newest first and capped at
`MAX_POINTS_PER_PROVIDER`.  The query itself (server-side filter and order) is
the oracle that produced `rows`; query or scan errors yield `{}` upstream. -/
def fallbackFetchSnapshot (parseDate : String → Int) (rows : List FallbackRow) :
    HistorySnapshot :=
  let history := rows.foldl
    (fun h record =>
      match record.check_configs with
      | [] => h
      | config :: _ =>
        pushResult h config.id
          { id := config.id
            name := config.name
            type := config.type
            endpoint := config.endpoint
            model := config.model
            status := record.status
            latencyMs := record.latency_ms
            pingLatencyMs := record.ping_latency_ms
            checkedAt := record.checked_at
            message := record.message.getD ""
            groupName := config.group_name
            officialStatus := none })
    []
  history.map fun e =>
    (e.1, (e.2.mergeSort (newestFirst parseDate)).take MAX_POINTS_PER_PROVIDER)

/-- `HistoryQueryOptions`. -/
structure HistoryQueryOptions where
  allowedIds : Option (List String)
  limitPerConfig : Option Nat
deriving DecidableEq, Repr

/-- `normalizeAllowedIds`: `null`/absent stays `null`; otherwise keep the
truthy ids (empty strings are falsy). -/
def normalizeAllowedIds (ids : Option (List String)) : Option (List String) :=
  match ids with
  | none => none
  | some l => some (l.filter fun s => s ≠ "")

/-- External outcomes of one `SnapshotStore.fetch` call: the RPC result and,
when the fallback table scan runs, its rows (`none` modelling a scan
failure, which the source degrades to `{}`). -/
structure FetchEnv where
  rpcOutcome : Except PostgrestError (List RpcHistoryRow)
  fallbackRows : Option (List FallbackRow)
deriving Repr

/-- `SnapshotStore.fetch`: empty normalized id set short-circuits to `{}`;
otherwise the RPC path maps its rows capped at `limitPerConfig ??
MAX_POINTS_PER_PROVIDER`; a missing-function RPC error takes the fallback
table-scan path; any other error degrades to `{}`. -/
def SnapshotStore.fetch (parseDate : String → Int) (env : FetchEnv)
    (options : HistoryQueryOptions) : HistorySnapshot :=
  let normalizedIds := normalizeAllowedIds options.allowedIds
  if normalizedIds = some [] then []
  else
    let limitPerConfig := options.limitPerConfig.getD MAX_POINTS_PER_PROVIDER
    match env.rpcOutcome with
    | .ok data => mapRowsToSnapshot parseDate data limitPerConfig
    | .error e =>
      if isMissingFunctionError e then
        match env.fallbackRows with
        | some rows => fallbackFetchSnapshot parseDate rows
        | none => []
      else []

/-- One row inserted into `check_history` by `SnapshotStore.append`. -/
structure InsertRecord where
  config_id : String
  status : CheckStatus
  latency_ms : Option Int
  ping_latency_ms : Option Int
  checked_at : String
  message : String
deriving DecidableEq, Repr

/-- The record mapping of `SnapshotStore.append`. -/
def toInsertRecord (result : CheckResult) : InsertRecord :=
  { config_id := result.id
    status := result.status
    latency_ms := result.latencyMs
    ping_latency_ms := result.pingLatencyMs
    checked_at := result.checkedAt
    message := result.message }

/-- Observable outcome of one `SnapshotStore.append` call: the table rows
after the call, the records inserted, and how many times the
retention-pruning side effect (`pruneInternal`) ran. -/
structure AppendOutcome where
  table : List InsertRecord
  inserted : List InsertRecord
  pruneCalls : Nat
deriving DecidableEq, Repr

/-- `SnapshotStore.append(results)`: an empty batch returns immediately;
otherwise the mapped records are inserted and, only when the insert succeeded
(`insertOk`), `pruneInternal` runs once (modelled by `pruneFn` on the table
plus a counter; an insert error is logged and swallowed). -/
def SnapshotStore.append (table : List InsertRecord) (insertOk : Bool)
    (pruneFn : List InsertRecord → List InsertRecord)
    (results : List CheckResult) : AppendOutcome :=
  if results = [] then
    { table := table, inserted := [], pruneCalls := 0 }
  else
    let records := results.map toInsertRecord
    if insertOk then
      { table := pruneFn (table ++ records)
        inserted := records
        pruneCalls := 1 }
    else
      { table := table, inserted := [], pruneCalls := 0 }

/-! ## src/lib/core/health-snapshot-service.ts (sequential denotation)

One call to `loadSnapshotForScope`, with every awaited collaborator an
explicit oracle.  The per-key cache entry comes from `getPingCacheEntry`
(src/lib/core/global-state.ts, outside src/). -/

/-- `SnapshotScope`. -/
structure SnapshotScope where
  cacheKey : String
  pollIntervalMs : Int
  activeConfigs : List ProviderConfig
  allowedIds : List String
  limitPerConfig : Option Nat

/-- Modelled from the spec: the per-scope cache entry returned by
`getPingCacheEntry` (src/lib/core/global-state.ts is not under src/): the
last-fetched history payload, the timestamp of the last refresh, and the
at-most-one in-flight refresh, here denoted by the value that awaiting the
in-flight promise eventually yields. -/
structure PingCacheEntry where
  history : Option HistorySnapshot
  lastPingAt : Int
  inflight : Option HistorySnapshot
deriving DecidableEq, Repr

/-- External collaborators of the snapshot service, over an abstract history
store state `Store`: the leadership election call (which may throw), the last
known election outcome, the probing capability, and the history store
(`historySnapshotStore.fetch` / `.append`). -/
structure SnapshotEnv (Store : Type) where
  ensurePollerLeadership : Except String Unit
  isPollerLeader : Bool
  runProviderChecks : List ProviderConfig → List CheckResult
  storeFetch : Store → List String → Option Nat → HistorySnapshot
  storeAppend : Store → List CheckResult → Store

/-- `readHistoryForScope`: empty allowed-id set short-circuits to `{}` without
touching the store. -/
def readHistoryForScope {Store : Type} (env : SnapshotEnv Store)
    (scope : SnapshotScope) (store : Store) : HistorySnapshot :=
  if scope.allowedIds = [] then []
  else env.storeFetch store scope.allowedIds scope.limitPerConfig

/-- Everything one `loadSnapshotForScope` call produces: its return value, the
cache entry and store afterwards, and the traces of probing-capability calls
and history-store appends it performed. -/
structure SnapshotCallResult (Store : Type) where
  result : HistorySnapshot
  cache : PingCacheEntry
  store : Store
  probeTrace : List (List ProviderConfig)
  appendTrace : List (List CheckResult)

/-- `loadSnapshotForScope(scope, refreshMode)` as one sequential call (the
in-flight promise belongs to a concurrent caller; awaiting it yields its
value and changes nothing owned by this call).  `now` is the `Date.now()`
captured on entry; `nlNow` and `refNow` are the later `Date.now()` calls of
the non-leader branch and of the refresh completion.  The election error is
caught, so the call only ever returns `.ok`. -/
def loadSnapshotForScope {Store : Type} (env : SnapshotEnv Store)
    (scope : SnapshotScope) (refreshMode : RefreshMode)
    (cache : PingCacheEntry) (store : Store) (now nlNow refNow : Int) :
    Except String (SnapshotCallResult Store) :=
  if scope.allowedIds = [] then
    .ok { result := [], cache := cache, store := store,
          probeTrace := [], appendTrace := [] }
  else if refreshMode = RefreshMode.never then
    match cache.history with
    | some h =>
      if now - cache.lastPingAt < scope.pollIntervalMs then
        .ok { result := h, cache := cache, store := store,
              probeTrace := [], appendTrace := [] }
      else
        let snapshot := readHistoryForScope env scope store
        .ok { result := snapshot,
              cache := { cache with history := some snapshot, lastPingAt := now },
              store := store, probeTrace := [], appendTrace := [] }
    | none =>
      let snapshot := readHistoryForScope env scope store
      .ok { result := snapshot,
            cache := { cache with history := some snapshot, lastPingAt := now },
            store := store, probeTrace := [], appendTrace := [] }
  else
    let history := readHistoryForScope env scope store
    if refreshMode = RefreshMode.always ∨
        (refreshMode = RefreshMode.missing ∧ scope.activeConfigs ≠ [] ∧
          history = []) then
      -- refreshHistory()
      if scope.activeConfigs = [] then
        .ok { result := [], cache := cache, store := store,
              probeTrace := [], appendTrace := [] }
      else
        match env.ensurePollerLeadership with
        | .error _ =>
          -- 主节点选举失败，跳过主动刷新: fall back to a plain read
          .ok { result := readHistoryForScope env scope store,
                cache := cache, store := store,
                probeTrace := [], appendTrace := [] }
        | .ok _ =>
          if env.isPollerLeader = false then
            let snapshot := readHistoryForScope env scope store
            .ok { result := snapshot,
                  cache := { cache with
                             history := some snapshot, lastPingAt := nlNow },
                  store := store, probeTrace := [], appendTrace := [] }
          else
            match cache.history with
            | some h =>
              if now - cache.lastPingAt < scope.pollIntervalMs then
                .ok { result := h, cache := cache, store := store,
                      probeTrace := [], appendTrace := [] }
              else
                match cache.inflight with
                | some v =>
                  .ok { result := v, cache := cache, store := store,
                        probeTrace := [], appendTrace := [] }
                | none =>
                  let results := env.runProviderChecks scope.activeConfigs
                  let store1 := env.storeAppend store results
                  let nextHistory := readHistoryForScope env scope store1
                  .ok { result := nextHistory,
                        cache := { history := some nextHistory,
                                   lastPingAt := refNow,
                                   inflight := none },
                        store := store1,
                        probeTrace := [scope.activeConfigs],
                        appendTrace := [results] }
            | none =>
              match cache.inflight with
              | some v =>
                .ok { result := v, cache := cache, store := store,
                      probeTrace := [], appendTrace := [] }
              | none =>
                let results := env.runProviderChecks scope.activeConfigs
                let store1 := env.storeAppend store results
                let nextHistory := readHistoryForScope env scope store1
                .ok { result := nextHistory,
                      cache := { history := some nextHistory,
                                 lastPingAt := refNow,
                                 inflight := none },
                      store := store1,
                      probeTrace := [scope.activeConfigs],
                      appendTrace := [results] }
    else
      .ok { result := history, cache := cache, store := store,
            probeTrace := [], appendTrace := [] }

/-- `attachOfficialStatus`: pure enrichment keyed on the provider type; the
result is unchanged when no official status is known.  `getOfficialStatus`
(src/lib/core/official-status-poller.ts, an external collaborator) is the
`officialStatus` lookup parameter. -/
def attachOfficialStatus (officialStatus : String → Option String)
    (result : CheckResult) : CheckResult :=
  match officialStatus result.type with
  | none => result
  | some s => { result with officialStatus := some s }

/-- Derived per-provider view (`ProviderTimeline`). -/
structure ProviderTimeline where
  id : String
  items : List CheckResult
  latest : CheckResult
deriving DecidableEq, Repr

/-- `createMaintenanceTimeline(config)`: a synthetic placeholder timeline for
a maintenance-flagged config — status `maintenance`, no latency, no items;
`nowIso` is the `new Date().toISOString()` oracle. -/
def createMaintenanceTimeline (officialStatus : String → Option String)
    (nowIso : String) (config : ProviderConfig) : ProviderTimeline :=
  let base : CheckResult :=
    { id := config.id
      name := config.name
      type := config.type
      endpoint := config.endpoint
      model := config.model
      status := CheckStatus.maintenance
      latencyMs := none
      pingLatencyMs := none
      checkedAt := nowIso
      message := "配置处于维护模式"
      groupName := config.groupName
      officialStatus := none }
  { id := config.id, items := [], latest := attachOfficialStatus officialStatus base }

/-- The `localeCompare`-based sort order of `buildProviderTimelines`: `a` stays
before `b` iff `a.latest.name.localeCompare(b.latest.name) ≤ 0`, with the
locale comparison an oracle `lc`. -/
def byLatestName (lc : String → String → Int) (a b : ProviderTimeline) : Bool :=
  decide (lc a.latest.name b.latest.name ≤ 0)

/-- The concatenation `[...mapped, ...maintenanceTimelines]` that
`buildProviderTimelines` sorts: one timeline per config id with at least one
history item (`latest` is the status-enriched head, entries with an empty
item list are filtered out), followed by one synthetic timeline per
maintenance config. -/
def timelinesBeforeSort (officialStatus : String → Option String)
    (nowIso : String) (history : HistorySnapshot)
    (maintenanceConfigs : List ProviderConfig) : List ProviderTimeline :=
  (history.filterMap fun e =>
    match e.2 with
    | [] => none
    | item0 :: _ =>
      some { id := e.1, items := e.2
             latest := attachOfficialStatus officialStatus item0 }) ++
  maintenanceConfigs.map (createMaintenanceTimeline officialStatus nowIso)

/-- `buildProviderTimelines(history, maintenanceConfigs)`: the mapped and
synthetic timelines, sorted by the latest result's display name under the
locale comparison. -/
def buildProviderTimelines (officialStatus : String → Option String)
    (lc : String → String → Int) (nowIso : String)
    (history : HistorySnapshot) (maintenanceConfigs : List ProviderConfig) :
    List ProviderTimeline :=
  (timelinesBeforeSort officialStatus nowIso history maintenanceConfigs).mergeSort
    (byLatestName lc)

/-- A concrete RPC row used to witness C5. -/
def sampleRpcRow : RpcHistoryRow where
  config_id := "a"
  status := CheckStatus.operational
  latency_ms := some 5
  ping_latency_ms := none
  checked_at := "t1"
  message := none
  name := "A"
  type := "openai"
  model := "m"
  endpoint := none
  group_name := none

/-- A concrete fetch environment used to witness C5. -/
def sampleFetchEnv : FetchEnv where
  rpcOutcome := Except.ok [sampleRpcRow]
  fallbackRows := none

/-- Query options with no explicit per-config limit, as every call in the
repository issues them. -/
def defaultQueryOptions : HistoryQueryOptions where
  allowedIds := some ["a"]
  limitPerConfig := none

/-- The call returned normally (no exception escaped) with a value satisfying
`P`. -/
def ReturnsOk {Store : Type} (r : Except String (SnapshotCallResult Store))
    (P : SnapshotCallResult Store → Prop) : Prop :=
  match r with
  | .ok out => P out
  | .error _ => False

/-- A concrete active provider config. -/
def sampleConfigA : ProviderConfig where
  id := "a"
  name := "Alpha"
  type := "openai"
  endpoint := "https://api.example.com/v1"
  model := "m-1"
  groupName := none
  is_maintenance := false

/-- A concrete scope over `sampleConfigA`. -/
def sampleScope : SnapshotScope where
  cacheKey := "dashboard:60000:a"
  pollIntervalMs := 60000
  activeConfigs := [sampleConfigA]
  allowedIds := ["a"]
  limitPerConfig := none

/-- A collaborator environment whose last election outcome is "not leader". -/
def followerEnv : SnapshotEnv Unit where
  ensurePollerLeadership := Except.ok ()
  isPollerLeader := false
  runProviderChecks := fun _ => []
  storeFetch := fun _ _ _ => []
  storeAppend := fun s _ => s

/-- A collaborator environment whose election call throws. -/
def electionDownEnv : SnapshotEnv Unit where
  ensurePollerLeadership := Except.error "lease store unreachable"
  isPollerLeader := false
  runProviderChecks := fun _ => []
  storeFetch := fun _ _ _ => []
  storeAppend := fun s _ => s

/-- A collaborator environment for a healthy leader. -/
def leaderEnv : SnapshotEnv Unit where
  ensurePollerLeadership := Except.ok ()
  isPollerLeader := true
  runProviderChecks := fun _ => []
  storeFetch := fun _ _ _ => []
  storeAppend := fun s _ => s

/-- A concrete probe result for the C8 scenario. -/
def c8Result : CheckResult where
  id := "a"
  name := "Alpha"
  type := "openai"
  endpoint := "https://api.example.com/v1"
  model := "m-1"
  status := CheckStatus.operational
  latencyMs := some 100
  pingLatencyMs := some 5
  checkedAt := "2026-01-01T00:00:00.000Z"
  message := "ok"
  groupName := none
  officialStatus := none

/-- A concrete maintenance-flagged config for the C8 scenario. -/
def maintenanceConfigB : ProviderConfig where
  id := "b"
  name := "Beta"
  type := "anthropic"
  endpoint := "https://api.example.org/v1"
  model := "m-2"
  groupName := none
  is_maintenance := true

/-- A concrete leader environment over a two-state store (0 = empty history,
1 = history holding the appended probe result). -/
def c8Env : SnapshotEnv Nat where
  ensurePollerLeadership := Except.ok ()
  isPollerLeader := true
  runProviderChecks := fun _ => [c8Result]
  storeFetch := fun s _ _ => if s = 0 then [] else [("a", [c8Result])]
  storeAppend := fun _ _ => 1

/-! ## src/lib/core/dashboard-data.ts — payload serialization and ETag

`JSON.stringify` is modelled by a JSON syntax tree with a renderer that
reproduces its output: object fields in property-creation order, strings
escaped as `JSON.stringify` escapes them, integers in decimal.  All payload
characters are BMP code points, so `Char.toNat` coincides with
`charCodeAt`. -/

/-- JSON values (numbers restricted to the integers this payload carries). -/
inductive Json where
  | str (s : String)
  | num (n : Int)
  | bool (b : Bool)
  | null
  | arr (items : List Json)
  | obj (fields : List (String × Json))
deriving Repr

/-- Four-digit lowercase hex, as in `JSON.stringify`'s `\u00XX` escapes. -/
def hex4 (n : Nat) : String :=
  let ds := Nat.toDigits 16 n
  String.mk (List.replicate (4 - ds.length) '0' ++ ds)

/-- The escape of one character inside a JSON string literal, exactly the
escapes `JSON.stringify` produces. -/
def escapeChar (c : Char) : String :=
  if c = '"' then "\\\""
  else if c = '\\' then "\\\\"
  else if c = '\n' then "\\n"
  else if c = '\r' then "\\r"
  else if c = '\t' then "\\t"
  else if c = '\x08' then "\\b"
  else if c = '\x0c' then "\\f"
  else if c.toNat < 32 then "\\u" ++ hex4 c.toNat
  else String.singleton c

/-- A JSON string literal. -/
def renderJsonString (s : String) : String :=
  "\"" ++ String.join (s.toList.map escapeChar) ++ "\""

mutual

/-- Render a JSON value the way `JSON.stringify` prints it. -/
def Json.render : Json → String
  | .str s => renderJsonString s
  | .num n => toString n
  | .bool b => if b then "true" else "false"
  | .null => "null"
  | .arr items => "[" ++ Json.renderItems items ++ "]"
  | .obj fields => "\x7b" ++ Json.renderFields fields ++ "\x7d"

/-- Comma-separated array items. -/
def Json.renderItems : List Json → String
  | [] => ""
  | [x] => x.render
  | x :: y :: rest => x.render ++ "," ++ Json.renderItems (y :: rest)

/-- Comma-separated `"key":value` fields. -/
def Json.renderFields : List (String × Json) → String
  | [] => ""
  | [f] => renderJsonString f.1 ++ ":" ++ f.2.render
  | f :: g :: rest =>
    renderJsonString f.1 ++ ":" ++ f.2.render ++ "," ++
      Json.renderFields (g :: rest)

end

/-- The literal status strings of the `CheckResult["status"]` union. -/
def statusString : CheckStatus → String
  | .operational => "operational"
  | .degraded => "degraded"
  | .validation_failed => "validation_failed"
  | .failed => "failed"
  | .error => "error"
  | .maintenance => "maintenance"

/-- `null` / string JSON value. -/
def optStrJson : Option String → Json
  | none => Json.null
  | some s => Json.str s

/-- `null` / number JSON value. -/
def optNumJson : Option Int → Json
  | none => Json.null
  | some n => Json.num n

/-- The JSON tree of one serialized `CheckResult`, fields in
property-creation order; `officialStatus` is present only when attached. -/
def CheckResult.toJson (r : CheckResult) : Json :=
  Json.obj
    ([("id", Json.str r.id), ("name", Json.str r.name),
      ("type", Json.str r.type), ("endpoint", Json.str r.endpoint),
      ("model", Json.str r.model), ("status", Json.str (statusString r.status)),
      ("latencyMs", optNumJson r.latencyMs),
      ("pingLatencyMs", optNumJson r.pingLatencyMs),
      ("checkedAt", Json.str r.checkedAt), ("message", Json.str r.message),
      ("groupName", optStrJson r.groupName)] ++
      (match r.officialStatus with
       | none => []
       | some s => [("officialStatus", Json.str s)]))

/-- The JSON tree of one serialized `ProviderTimeline`. -/
def ProviderTimeline.toJson (t : ProviderTimeline) : Json :=
  Json.obj
    [("id", Json.str t.id),
     ("items", Json.arr (t.items.map CheckResult.toJson)),
     ("latest", t.latest.toJson)]

/-- `GroupInfoSummary` as assembled by `loadDashboardDataInternal`. -/
structure GroupInfoSummary where
  groupName : String
  websiteUrl : Option String
  tags : String
deriving DecidableEq, Repr

/-- The JSON tree of one serialized `GroupInfoSummary`. -/
def GroupInfoSummary.toJson (g : GroupInfoSummary) : Json :=
  Json.obj
    [("groupName", Json.str g.groupName),
     ("websiteUrl", optStrJson g.websiteUrl),
     ("tags", Json.str g.tags)]

/-- `DashboardData` with the fields in the order the source's object literal
creates them.  The availability statistics come from an external collaborator
(src/lib/database/availability.ts is outside src/), so their entries carry
opaque JSON values. -/
structure DashboardData where
  providerTimelines : List ProviderTimeline
  groupInfos : List GroupInfoSummary
  lastUpdated : Option String
  total : Int
  pollIntervalLabel : String
  pollIntervalMs : Int
  availabilityStats : List (String × Json)
  trendPeriod : String
  generatedAt : Int

/-- The JSON tree of the ETag payload: the rest-destructuring
`const { generatedAt, ...etagPayload } = data` keeps all fields except
`generatedAt`, in creation order. -/
def dashboardEtagPayloadJson (data : DashboardData) : Json :=
  Json.obj
    [("providerTimelines",
        Json.arr (data.providerTimelines.map ProviderTimeline.toJson)),
     ("groupInfos", Json.arr (data.groupInfos.map GroupInfoSummary.toJson)),
     ("lastUpdated", optStrJson data.lastUpdated),
     ("total", Json.num data.total),
     ("pollIntervalLabel", Json.str data.pollIntervalLabel),
     ("pollIntervalMs", Json.num data.pollIntervalMs),
     ("availabilityStats", Json.obj data.availabilityStats),
     ("trendPeriod", Json.str data.trendPeriod)]

/-- `generateETag(data)`: the djb2-variant rolling hash
`hash = ((hash << 5) + hash) ^ charCode` over the string, seeded with 5381,
kept in the unsigned 32-bit range, hex-encoded and wrapped in quote
characters. -/
def generateETag (data : String) : String :=
  let hash := data.toList.foldl
    (fun hash c => (((hash <<< 5) + hash) % 4294967296) ^^^ c.toNat) 5381
  "\"" ++ String.mk (Nat.toDigits 16 hash) ++ "\""

/-- `buildDashboardEtag(data)`: the ETag of the JSON-serialized payload with
`generatedAt` stripped (identical in src/lib/core/dashboard-data.ts and
src/app/api/dashboard/route.ts). -/
def buildDashboardEtag (data : DashboardData) : String :=
  generateETag (Json.render (dashboardEtagPayloadJson data))

/-- Modelled from the spec: the fingerprint algorithm as §4.4 words it — "a
32-bit rolling hash (seed 5381; per character: `hash = ((hash << 5) + hash)
XOR charCode`, unsigned 32-bit, hex-encoded)". -/
def specFingerprint (data : String) : String :=
  let hash := data.toList.foldl
    (fun hash c => (((hash <<< 5) + hash) ^^^ c.toNat) % 4294967296) 5381
  "\"" ++ String.mk (Nat.toDigits 16 hash) ++ "\""

/-- The `latest` result of the C6 payload, parametrized by its message. -/
def c6Latest (msg : String) : CheckResult where
  id := "b"
  name := "Beta"
  type := "anthropic"
  endpoint := "https://api.example.org/v1"
  model := "m-2"
  status := CheckStatus.maintenance
  latencyMs := none
  pingLatencyMs := none
  checkedAt := "2026-01-01T00:00:00.000Z"
  message := msg
  groupName := none
  officialStatus := none

/-- A concrete dashboard payload whose only varying part is the message of
its single result. -/
def c6Payload (msg : String) : DashboardData where
  providerTimelines :=
    [{ id := "b", items := [], latest := c6Latest msg }]
  groupInfos := []
  lastUpdated := none
  total := 1
  pollIntervalLabel := "60s"
  pollIntervalMs := 60000
  availabilityStats := []
  trendPeriod := "7d"
  generatedAt := 1767225600000

/-! ## src/unnamed/part_001 — frontend SWR cache

The client-side `fetchWithCache` (the revision with `prefetchDashboardData`
and the miss-with-inflight-prefetch reuse).  The per-key global maps `cache`
and `pendingRequests` enter as the state for this call's key; the network is
an oracle. -/

/-- 缓存有效期默认值：5 分钟. -/
def DEFAULT_CACHE_TTL_MS : Int := 5 * 60 * 1000

/-- One frontend cache entry. -/
structure CacheEntry where
  data : DashboardData
  timestamp : Int
  etag : Option String
  ttlMs : Int

/-- `isExpired(entry)`, with `Date.now()` passed in. -/
def isExpired (now : Int) (entry : CacheEntry) : Bool :=
  decide (now - entry.timestamp ≥ entry.ttlMs)

/-- `setCache(trendPeriod, data, etag)`: the TTL is the payload's poll
interval when positive (integers are always finite here), else the
default. -/
def setCache (now : Int) (data : DashboardData) (etag : Option String) :
    CacheEntry :=
  { data := data
    timestamp := now
    etag := etag
    ttlMs := if data.pollIntervalMs > 0 then data.pollIntervalMs
             else DEFAULT_CACHE_TTL_MS }

/-- The HTTP response oracle for one `fetchFromNetwork` call. -/
structure NetResponse where
  status304 : Bool
  ok : Bool
  data : DashboardData
  etag : Option String

/-- `fetchFromNetwork`: a 304 yields no data and keeps the request ETag; a
non-ok response throws; otherwise the body and the response ETag header. -/
def fetchFromNetwork (resp : NetResponse) (etag : Option String) :
    Except String (Option DashboardData × Option String) :=
  if resp.status304 then .ok (none, etag)
  else if resp.ok = false then .error "请求失败"
  else .ok (some resp.data, resp.etag)

/-- The in-flight request a concurrent `prefetchDashboardData` (or an earlier
background revalidation) left in `pendingRequests` for this key: the value
awaiting it resolves to (`null` on 304 or on a swallowed error) and the cache
entry for the key after its completion handlers ran. -/
structure PendingFetch where
  value : Option DashboardData
  cacheAfter : Option CacheEntry

/-- The value `fetchWithCache` resolves to. -/
structure FetchWithCacheResult where
  data : DashboardData
  fromCache : Bool
  isRevalidating : Bool

/-- Everything one `fetchWithCache` call produces: its result (or the error
it throws), the cache entry for the key at return time, and how many network
requests the call initiated (foreground fetches plus any background
revalidation it started; a revalidation is not started when a pending request
already exists). -/
structure FetchWithCacheOutcome where
  result : Except String FetchWithCacheResult
  cacheAtReturn : Option CacheEntry
  networkRequests : Nat

/-- The shared "no cache: wait for the request" tail of `fetchWithCache`
(`fetchFromNetwork(trendPeriod, undefined, ...)`; a null body throws
无数据可用). -/
def fetchWithCacheMissTail (now : Int) (foreNet : NetResponse)
    (cacheNow : Option CacheEntry) : FetchWithCacheOutcome :=
  match fetchFromNetwork foreNet none with
  | .error e => { result := .error e, cacheAtReturn := cacheNow,
                  networkRequests := 1 }
  | .ok (some d, etag) =>
    { result := .ok { data := d, fromCache := false, isRevalidating := false }
      cacheAtReturn := some (setCache now d etag)
      networkRequests := 1 }
  | .ok (none, _) =>
    { result := .error "无数据可用", cacheAtReturn := cacheNow,
      networkRequests := 1 }

/-- `fetchWithCache(options)` for this call's key: forced refresh bypasses
the cache; a fresh hit returns the cached payload (optionally starting a
deduplicated background revalidation); a stale hit returns the stale payload
and starts a deduplicated background revalidation; a miss first reuses an
in-flight prefetch when one exists, and only otherwise fetches. -/
def fetchWithCache (now : Int) (foreNet : NetResponse)
    (cached : Option CacheEntry) (pending : Option PendingFetch)
    (forceFresh revalidateIfFresh : Bool) : FetchWithCacheOutcome :=
  if forceFresh then
    match fetchFromNetwork foreNet none with
    | .error e => { result := .error e, cacheAtReturn := cached,
                    networkRequests := 1 }
    | .ok (some d, etag) =>
      { result := .ok { data := d, fromCache := false, isRevalidating := false }
        cacheAtReturn := some (setCache now d etag)
        networkRequests := 1 }
    | .ok (none, _) =>
      match cached with
      | some entry =>
        { result := .ok { data := entry.data, fromCache := true,
                          isRevalidating := false }
          cacheAtReturn := cached, networkRequests := 1 }
      | none => { result := .error "无数据可用", cacheAtReturn := cached,
                  networkRequests := 1 }
  else
    match cached with
    | some entry =>
      if isExpired now entry = false then
        if revalidateIfFresh then
          { result := .ok { data := entry.data, fromCache := true,
                            isRevalidating := true }
            cacheAtReturn := cached
            networkRequests := if pending.isSome then 0 else 1 }
        else
          { result := .ok { data := entry.data, fromCache := true,
                            isRevalidating := false }
            cacheAtReturn := cached, networkRequests := 0 }
      else
        { result := .ok { data := entry.data, fromCache := true,
                          isRevalidating := true }
          cacheAtReturn := cached
          networkRequests := if pending.isSome then 0 else 1 }
    | none =>
      match pending with
      | some p =>
        -- 没有缓存但已有预取请求：复用请求并等待结果
        match p.value with
        | some d =>
          { result := .ok { data := d, fromCache := true,
                            isRevalidating := false }
            cacheAtReturn := p.cacheAfter, networkRequests := 0 }
        | none =>
          match p.cacheAfter with
          | some latestCache =>
            { result := .ok { data := latestCache.data, fromCache := true,
                              isRevalidating := false }
              cacheAtReturn := p.cacheAfter, networkRequests := 0 }
          | none => fetchWithCacheMissTail now foreNet p.cacheAfter
      | none => fetchWithCacheMissTail now foreNet none

/-- The machine collaborators for the C1 witness run: a leader with a
healthy election. -/
def machineEnv : SnapshotEnv Unit where
  ensurePollerLeadership := Except.ok ()
  isPollerLeader := true
  runProviderChecks := fun _ => [c8Result]
  storeFetch := fun _ _ _ => [("a", [c8Result])]
  storeAppend := fun s _ => s

/-! ## src/lib/core/health-snapshot-service.ts — concurrent semantics

`loadSnapshotForScope` under single-threaded cooperative concurrency: N
calls for the same scope key interleave at their `await` points.  Each call
is a task whose program counter sits at one of the suspension points of the
source; everything between two `await`s runs atomically.  In particular the
in-flight check, the synchronous start of `runProviderChecks` inside the
IIFE, and the `cacheEntry.inflight` assignment (lines 80-93) are one atomic
step, and the `finally` cleanup (lines 96-100) is a separate step after the
promise resolves.  The shared cache entry for the key, the store and the
monotone clock (`Date.now()`) live in the machine state; awaited reads are
evaluated when the awaiting task resumes. -/

namespace SnapshotMachine

/-- The suspension points of one `loadSnapshotForScope` call. -/
inductive TaskPhase where
  /-- Call issued; synchronous prologue (capture `now`, mode dispatch) not
  yet run. -/
  | start
  /-- `never` mode: awaiting the plain read. -/
  | neverReadWait
  /-- Awaiting the pre-read of line 103. -/
  | preReadWait
  /-- Awaiting `ensurePollerLeadership()`. -/
  | ensureWait
  /-- Awaiting the fallback read of the election-failure catch. -/
  | failReadWait
  /-- Awaiting the non-leader plain read. -/
  | nlReadWait
  /-- Owner: awaiting `runProviderChecks` (probe started, inflight set). -/
  | probeWait
  /-- Owner: awaiting `historySnapshotStore.append`. -/
  | appendWait
  /-- Owner: awaiting the re-read of the full snapshot. -/
  | reReadWait
  /-- Owner: promise resolved; `finally` cleanup not yet run. -/
  | finalizeWait
  /-- Awaiting another task's in-flight promise. -/
  | joinWait (owner : Nat)
  /-- Call returned `value`. -/
  | done (value : HistorySnapshot)
deriving DecidableEq, Repr

/-- One task: its suspension point, the `now` it captured on entry, and the
value its in-flight promise resolved with (owners only). -/
structure TaskState where
  phase : TaskPhase
  savedNow : Int
  resolved : Option HistorySnapshot
deriving DecidableEq, Repr

/-- The shared state: the tasks, the scope's cache entry
(`history`/`lastPingAt`/`inflight`, the latter naming the owning task), the
history store, the clock and the traces of probe calls and store appends. -/
structure MState (Store : Type) where
  tasks : List TaskState
  cacheHistory : Option HistorySnapshot
  lastPingAt : Int
  inflight : Option Nat
  store : Store
  clock : Int
  probeTrace : List (List ProviderConfig)
  appendTrace : List (List CheckResult)
deriving DecidableEq, Repr

/-- Replace task `tid`. -/
def upd {Store : Type} (σ : MState Store) (tid : Nat) (ts : TaskState) :
    MState Store :=
  { σ with tasks := σ.tasks.set tid ts }

/-- Run the scheduled task's next atomic step (a no-op when the task does not
exist, is finished, or awaits an unresolved promise). -/
def stepTask {Store : Type} (env : SnapshotEnv Store) (scope : SnapshotScope)
    (refreshMode : RefreshMode) (σ : MState Store) (tid : Nat) :
    MState Store :=
  match σ.tasks[tid]? with
  | none => σ
  | some ts =>
    match ts.phase with
    | .start =>
      -- synchronous prologue: `now = Date.now()`, mode dispatch
      let savedNow := σ.clock
      if scope.allowedIds = [] then
        upd σ tid { ts with phase := .done [], savedNow := savedNow }
      else if refreshMode = RefreshMode.never then
        match σ.cacheHistory with
        | some h =>
          if savedNow - σ.lastPingAt < scope.pollIntervalMs then
            upd σ tid { ts with phase := .done h, savedNow := savedNow }
          else
            upd σ tid { ts with phase := .neverReadWait, savedNow := savedNow }
        | none =>
          upd σ tid { ts with phase := .neverReadWait, savedNow := savedNow }
      else
        upd σ tid { ts with phase := .preReadWait, savedNow := savedNow }
    | .neverReadWait =>
      let snapshot := readHistoryForScope env scope σ.store
      { σ with tasks := σ.tasks.set tid { ts with phase := .done snapshot },
               cacheHistory := some snapshot, lastPingAt := ts.savedNow }
    | .preReadWait =>
      let history := readHistoryForScope env scope σ.store
      if refreshMode = RefreshMode.always ∨
          (refreshMode = RefreshMode.missing ∧ scope.activeConfigs ≠ [] ∧
            history = []) then
        if scope.activeConfigs = [] then
          upd σ tid { ts with phase := .done [] }
        else
          upd σ tid { ts with phase := .ensureWait }
      else
        upd σ tid { ts with phase := .done history }
    | .ensureWait =>
      match env.ensurePollerLeadership with
      | .error _ => upd σ tid { ts with phase := .failReadWait }
      | .ok _ =>
        if env.isPollerLeader = false then
          upd σ tid { ts with phase := .nlReadWait }
        else
          match σ.cacheHistory with
          | some h =>
            if ts.savedNow - σ.lastPingAt < scope.pollIntervalMs then
              upd σ tid { ts with phase := .done h }
            else
              match σ.inflight with
              | some j => upd σ tid { ts with phase := .joinWait j }
              | none =>
                { σ with
                  tasks := σ.tasks.set tid { ts with phase := .probeWait },
                  inflight := some tid,
                  probeTrace := σ.probeTrace ++ [scope.activeConfigs] }
          | none =>
            match σ.inflight with
            | some j => upd σ tid { ts with phase := .joinWait j }
            | none =>
              { σ with
                tasks := σ.tasks.set tid { ts with phase := .probeWait },
                inflight := some tid,
                probeTrace := σ.probeTrace ++ [scope.activeConfigs] }
    | .failReadWait =>
      let snapshot := readHistoryForScope env scope σ.store
      upd σ tid { ts with phase := .done snapshot }
    | .nlReadWait =>
      let snapshot := readHistoryForScope env scope σ.store
      { σ with tasks := σ.tasks.set tid { ts with phase := .done snapshot },
               cacheHistory := some snapshot, lastPingAt := σ.clock }
    | .probeWait =>
      let results := env.runProviderChecks scope.activeConfigs
      { σ with tasks := σ.tasks.set tid { ts with phase := .appendWait },
               store := env.storeAppend σ.store results,
               appendTrace := σ.appendTrace ++ [results] }
    | .appendWait => upd σ tid { ts with phase := .reReadWait }
    | .reReadWait =>
      let nextHistory := readHistoryForScope env scope σ.store
      { σ with
        tasks := σ.tasks.set tid
          { ts with phase := .finalizeWait, resolved := some nextHistory },
        cacheHistory := some nextHistory, lastPingAt := σ.clock }
    | .finalizeWait =>
      let v := ts.resolved.getD []
      if σ.inflight = some tid then
        { σ with tasks := σ.tasks.set tid { ts with phase := .done v },
                 inflight := none }
      else
        upd σ tid { ts with phase := .done v }
    | .joinWait j =>
      match σ.tasks[j]? with
      | none => σ
      | some tj =>
        match tj.resolved with
        | some v => upd σ tid { ts with phase := .done v }
        | none => σ
    | .done _ => σ

/-- One scheduler command: advance the clock by `dt`, then step task
`tid`. -/
structure Cmd where
  tid : Nat
  dt : Nat
deriving DecidableEq, Repr

/-- Execute one command. -/
def stepCmd {Store : Type} (env : SnapshotEnv Store) (scope : SnapshotScope)
    (refreshMode : RefreshMode) (σ : MState Store) (c : Cmd) : MState Store :=
  stepTask env scope refreshMode { σ with clock := σ.clock + c.dt } c.tid

/-- Execute a command list. -/
def runCmds {Store : Type} (env : SnapshotEnv Store) (scope : SnapshotScope)
    (refreshMode : RefreshMode) (σ : MState Store) (cmds : List Cmd) :
    MState Store :=
  cmds.foldl (stepCmd env scope refreshMode) σ

/-- N freshly issued calls over a cold cache entry. -/
def initState (Store : Type) (n : Nat) (store : Store) (clock lastPing : Int) :
    MState Store :=
  { tasks := List.replicate n
      { phase := .start, savedNow := 0, resolved := none },
    cacheHistory := none, lastPingAt := lastPing, inflight := none,
    store := store, clock := clock, probeTrace := [], appendTrace := [] }

/-- The phases reachable in the leader/`always` runs of interest. -/
def TaskPhase.allowedPhase : TaskPhase → Bool
  | .neverReadWait | .nlReadWait | .failReadWait => false
  | _ => true

/-- Owner phases: from becoming the in-flight owner to the `finally`
cleanup. -/
def TaskPhase.ownerish : TaskPhase → Bool
  | .probeWait | .appendWait | .reReadWait | .finalizeWait => true
  | _ => false

/-- An actively refreshing owner (probe, append or re-read in flight). -/
def TaskPhase.isActiveRefresh : TaskPhase → Bool
  | .probeWait | .appendWait | .reReadWait => true
  | _ => false

/-- Phases before any leadership/in-flight decision. -/
def TaskPhase.quiet : TaskPhase → Bool
  | .start | .preReadWait | .ensureWait => true
  | _ => false

/-- Phases a task can hold while no append has happened yet. -/
def TaskPhase.preAppend : TaskPhase → Bool
  | .start | .preReadWait | .ensureWait | .probeWait | .joinWait _ => true
  | _ => false

/-- Finished. -/
def TaskPhase.isDone : TaskPhase → Bool
  | .done _ => true
  | _ => false

/-- "All calls were issued before the first refresh completed": whenever some
task's promise has resolved, no task is still at its synchronous prologue. -/
def TraceCond {Store : Type} (σ : MState Store) : Prop :=
  (∃ ts ∈ σ.tasks, ts.resolved ≠ none) →
    ∀ ts ∈ σ.tasks, ts.phase ≠ TaskPhase.start

instance {Store : Type} (σ : MState Store) : Decidable (TraceCond σ) := by
  unfold TraceCond
  infer_instance

/-- The inductive invariant of leader / `always`-mode runs from a cold cache:
single ownership of the in-flight slot, trace shapes, and the freshness facts
that make a second probe impossible. -/
structure Inv {Store : Type} (env : SnapshotEnv Store) (scope : SnapshotScope)
    (σ : MState Store) : Prop where
  phasesOk : ∀ (j : Nat) (ts : TaskState), σ.tasks[j]? = some ts → ts.phase.allowedPhase = true
  ownerOfInflight : ∀ j, σ.inflight = some j →
    ∃ ts, σ.tasks[j]? = some ts ∧ ts.phase.ownerish = true
  ownerishHasInflight : ∀ (j : Nat) (ts : TaskState), σ.tasks[j]? = some ts →
    ts.phase.ownerish = true → σ.inflight = some j
  resolvedAtFinalize : ∀ (j : Nat) (ts : TaskState), σ.tasks[j]? = some ts →
    ts.phase = TaskPhase.finalizeWait → ts.resolved ≠ none
  probeShape : σ.probeTrace = [] ∨ σ.probeTrace = [scope.activeConfigs]
  appendShape : σ.appendTrace = [] ∨
    σ.appendTrace = [env.runProviderChecks scope.activeConfigs]
  probeBusy : σ.probeTrace ≠ [] → σ.inflight ≠ none ∨ σ.cacheHistory ≠ none
  appendBusy : σ.appendTrace ≠ [] → σ.inflight ≠ none ∨ σ.cacheHistory ≠ none
  probeWaitClean : ∀ (j : Nat) (ts : TaskState), σ.tasks[j]? = some ts →
    ts.phase = TaskPhase.probeWait → σ.appendTrace = []
  noProbeClean : σ.probeTrace = [] → σ.inflight = none ∧
    σ.cacheHistory = none ∧ σ.appendTrace = [] ∧
    ∀ (j : Nat) (ts : TaskState), σ.tasks[j]? = some ts → ts.phase.quiet = true
  noAppendClean : σ.appendTrace = [] → σ.cacheHistory = none ∧
    ∀ (j : Nat) (ts : TaskState), σ.tasks[j]? = some ts →
      ts.resolved = none ∧ ts.phase.preAppend = true
  freshAll : σ.cacheHistory ≠ none → ∀ (j : Nat) (ts : TaskState), σ.tasks[j]? = some ts →
    ts.phase ≠ TaskPhase.start → ts.savedNow ≤ σ.lastPingAt
  savedLeClock : ∀ (j : Nat) (ts : TaskState), σ.tasks[j]? = some ts →
    ts.phase ≠ TaskPhase.start → ts.savedNow ≤ σ.clock
  historyResolved : σ.cacheHistory ≠ none →
    ∃ (j : Nat) (ts : TaskState), σ.tasks[j]? = some ts ∧ ts.resolved ≠ none
  resolvedHistory : ∀ (j : Nat) (ts : TaskState), σ.tasks[j]? = some ts → ts.resolved ≠ none →
    σ.cacheHistory ≠ none

end SnapshotMachine

/-- The C1 witness schedule: two calls issued together; the first becomes the
owner and completes, the second joins its in-flight promise. -/
def c1Schedule : List SnapshotMachine.Cmd :=
  [⟨0, 0⟩, ⟨1, 0⟩, ⟨0, 1⟩, ⟨0, 0⟩, ⟨1, 1⟩, ⟨1, 0⟩, ⟨0, 2⟩, ⟨0, 1⟩, ⟨0, 1⟩,
   ⟨0, 0⟩, ⟨1, 1⟩]

/-! ## Generic sorting facts for the two read paths -/

/-- `newestFirst` is transitive. -/
lemma newestFirst_trans (parseDate : String → Int) (a b c : CheckResult)
    (hab : newestFirst parseDate a b) (hbc : newestFirst parseDate b c) :
    newestFirst parseDate a c := by
  simp only [newestFirst, decide_eq_true_eq] at *
  exact le_trans hbc hab

/-- `newestFirst` is total. -/
lemma newestFirst_total (parseDate : String → Int) (a b : CheckResult) :
    (newestFirst parseDate a b || newestFirst parseDate b a) = true := by
  simp only [newestFirst, Bool.or_eq_true, decide_eq_true_eq]
  exact (le_total (parseDate b.checkedAt) (parseDate a.checkedAt))

/-- Sorting a group newest first and capping it yields a list of length at
most the cap, ordered newest first. -/
lemma mergeSort_take_newestFirst (parseDate : String → Int)
    (l : List CheckResult) (n : Nat) :
    ((l.mergeSort (newestFirst parseDate)).take n).length ≤ n ∧
      List.Pairwise
        (fun a b => parseDate b.checkedAt ≤ parseDate a.checkedAt)
        ((l.mergeSort (newestFirst parseDate)).take n) := by
  constructor
  · simp [List.length_take]
  · have hs := @List.sorted_mergeSort CheckResult (newestFirst parseDate)
      (fun a b c => newestFirst_trans parseDate a b c)
      (fun a b => newestFirst_total parseDate a b) l
    have hsub : List.Sublist ((l.mergeSort (newestFirst parseDate)).take n)
        (l.mergeSort (newestFirst parseDate)) := List.take_sublist n _
    have hp := hs.sublist hsub
    exact hp.imp fun h => by
      simpa [newestFirst, decide_eq_true_eq] using h

/-- Every entry of a grouped snapshot that was sorted-and-capped per key obeys
the cap and the newest-first order. -/
lemma capped_map_sound (parseDate : String → Int) (h : HistorySnapshot) (n : Nat)
    (p : String × List CheckResult)
    (hp : p ∈ h.map fun e => (e.1, (e.2.mergeSort (newestFirst parseDate)).take n)) :
    p.2.length ≤ n ∧
      List.Pairwise (fun a b => parseDate b.checkedAt ≤ parseDate a.checkedAt) p.2 := by
  rcases List.mem_map.1 hp with ⟨e, _, rfl⟩
  exact mergeSort_take_newestFirst parseDate e.2 n

/-- C5: after any fetch from the history store — as the repository performs
it, with no explicit `limitPerConfig` — every config's item list holds at most
`MAX_POINTS_PER_PROVIDER` results and is ordered newest first, on the
optimized RPC read path and on the fallback table-scan read path alike (both
are capped at the same `MAX_POINTS_PER_PROVIDER` bound). -/
theorem c5_fetch_cap_and_order (parseDate : String → Int) (env : FetchEnv)
    (options : HistoryQueryOptions) (hLim : options.limitPerConfig = none) :
    ∀ p ∈ SnapshotStore.fetch parseDate env options,
      p.2.length ≤ MAX_POINTS_PER_PROVIDER ∧
        List.Pairwise
          (fun a b => parseDate b.checkedAt ≤ parseDate a.checkedAt) p.2 := by
  intro p hp
  unfold SnapshotStore.fetch at hp
  by_cases hids : normalizeAllowedIds options.allowedIds = some []
  · simp [hids] at hp
  · rw [if_neg hids] at hp
    simp only [hLim, Option.getD_none] at hp
    cases henv : env.rpcOutcome with
    | ok data =>
      simp only [henv] at hp
      unfold mapRowsToSnapshot at hp
      by_cases hrows : data = []
      · simp [hrows] at hp
      · simp only [if_neg hrows] at hp
        exact capped_map_sound parseDate _ _ p hp
    | error e =>
      simp only [henv] at hp
      by_cases hmiss : isMissingFunctionError e = true
      · simp only [if_pos hmiss] at hp
        cases hfb : env.fallbackRows with
        | some rows =>
          simp only [hfb] at hp
          unfold fallbackFetchSnapshot at hp
          exact capped_map_sound parseDate _ _ p hp
        | none => simp [hfb] at hp
      · simp [if_neg hmiss] at hp

/-- C5 witness at a concrete fetch. -/
theorem c5_fetch_cap_and_order_witness :
    defaultQueryOptions.limitPerConfig = none ∧
      ∀ p ∈ SnapshotStore.fetch (fun _ => 0) sampleFetchEnv defaultQueryOptions,
        p.2.length ≤ MAX_POINTS_PER_PROVIDER ∧
          List.Pairwise (fun a b => (fun _ => (0 : Int)) b.checkedAt ≤
            (fun _ => (0 : Int)) a.checkedAt) p.2 :=
  ⟨rfl, c5_fetch_cap_and_order (fun _ => 0) sampleFetchEnv defaultQueryOptions rfl⟩

/-- C10: appending an empty results batch is a no-op — no rows are inserted
into `check_history`, the retention-pruning side effect does not run, and the
store is unchanged. -/
theorem c10_append_empty_noop (table : List InsertRecord) (insertOk : Bool)
    (pruneFn : List InsertRecord → List InsertRecord) :
    SnapshotStore.append table insertOk pruneFn [] =
      { table := table, inserted := [], pruneCalls := 0 } := by
  simp [SnapshotStore.append]

/-- C2: whenever the last known election outcome is "not leader", a
`loadSnapshotForScope` call never invokes the probing capability and never
appends to the history store, in every refresh mode; and when the refresh
path is actually taken (election call succeeded), it performs a plain history
read, stores that read in the cache entry with a fresh timestamp, and returns
the read result. -/
theorem c2_nonleader_no_probe {Store : Type} (env : SnapshotEnv Store)
    (scope : SnapshotScope) (mode : RefreshMode) (cache : PingCacheEntry)
    (store : Store) (now nlNow refNow : Int)
    (hLeaderF : env.isPollerLeader = false) :
    ReturnsOk (loadSnapshotForScope env scope mode cache store now nlNow refNow)
      fun out =>
        out.probeTrace = [] ∧ out.appendTrace = [] ∧
        (scope.allowedIds ≠ [] → scope.activeConfigs ≠ [] →
          env.ensurePollerLeadership = .ok () →
          (mode = RefreshMode.always ∨
            (mode = RefreshMode.missing ∧
              readHistoryForScope env scope store = [])) →
          out.result = readHistoryForScope env scope store ∧
          out.cache.history = some (readHistoryForScope env scope store) ∧
          out.cache.lastPingAt = nlNow) := by
  unfold loadSnapshotForScope
  by_cases hIds : scope.allowedIds = []
  · simp [hIds, ReturnsOk]
  · rw [if_neg hIds]
    cases mode with
    | never =>
      cases hH : cache.history with
      | some h =>
        by_cases hFresh : now - cache.lastPingAt < scope.pollIntervalMs
        · simp [hH, hFresh, ReturnsOk]
        · simp [hH, hFresh, ReturnsOk]
      | none => simp [hH, ReturnsOk]
    | missing =>
      by_cases hActive : scope.activeConfigs = []
      · simp [hActive, ReturnsOk]
      · by_cases hEmpty : readHistoryForScope env scope store = []
        · cases hE : env.ensurePollerLeadership with
          | error e => simp [hActive, hEmpty, hE, ReturnsOk]
          | ok u => simp [hActive, hEmpty, hE, hLeaderF, ReturnsOk]
        · simp [hActive, hEmpty, ReturnsOk]
    | always =>
      by_cases hActive : scope.activeConfigs = []
      · simp [hActive, ReturnsOk]
      · cases hE : env.ensurePollerLeadership with
        | error e => simp [hActive, hE, ReturnsOk]
        | ok u => simp [hActive, hE, hLeaderF, ReturnsOk]

/-- C3: if the leadership election call throws while the refresh path of
`loadSnapshotForScope` is taken, the call returns exactly what a plain
history read yields, does not invoke the probing capability, does not append,
leaves the cache entry untouched, and no exception escapes (the result is
`.ok`). -/
theorem c3_election_failure_falls_back {Store : Type} (env : SnapshotEnv Store)
    (scope : SnapshotScope) (mode : RefreshMode) (cache : PingCacheEntry)
    (store : Store) (now nlNow refNow : Int) (e : String)
    (hErr : env.ensurePollerLeadership = .error e)
    (hIds : scope.allowedIds ≠ []) (hActive : scope.activeConfigs ≠ [])
    (hTaken : mode = RefreshMode.always ∨
      (mode = RefreshMode.missing ∧ readHistoryForScope env scope store = [])) :
    loadSnapshotForScope env scope mode cache store now nlNow refNow =
      .ok { result := readHistoryForScope env scope store, cache := cache,
            store := store, probeTrace := [], appendTrace := [] } := by
  unfold loadSnapshotForScope
  rw [if_neg hIds]
  rcases hTaken with hAlways | ⟨hMissing, hEmpty⟩
  · subst hAlways
    simp [hActive, hErr]
  · subst hMissing
    simp [hActive, hEmpty, hErr]

/-- C4: in refresh mode `always`, a leader whose cache entry still holds a
history payload younger than the poll interval returns the cached history
unchanged and does not call the probing capability (nor append). -/
theorem c4_fresh_leader_short_circuit {Store : Type} (env : SnapshotEnv Store)
    (scope : SnapshotScope) (cache : PingCacheEntry) (store : Store)
    (now nlNow refNow : Int) (h : HistorySnapshot)
    (hIds : scope.allowedIds ≠ []) (hActive : scope.activeConfigs ≠ [])
    (hEnsure : env.ensurePollerLeadership = .ok ())
    (hLeader : env.isPollerLeader = true)
    (hHist : cache.history = some h)
    (hFresh : now - cache.lastPingAt < scope.pollIntervalMs) :
    loadSnapshotForScope env scope RefreshMode.always cache store now nlNow
        refNow =
      .ok { result := h, cache := cache, store := store,
            probeTrace := [], appendTrace := [] } := by
  unfold loadSnapshotForScope
  rw [if_neg hIds]
  simp [hActive, hEnsure, hLeader, hHist, hFresh]

/-- C2 witness: a concrete non-leader refresh call. -/
theorem c2_nonleader_no_probe_witness :
    ReturnsOk (loadSnapshotForScope followerEnv sampleScope RefreshMode.always
        { history := none, lastPingAt := 0, inflight := none } () 0 1 2)
      (fun out =>
        out.probeTrace = [] ∧ out.appendTrace = [] ∧
        (sampleScope.allowedIds ≠ [] → sampleScope.activeConfigs ≠ [] →
          followerEnv.ensurePollerLeadership = .ok () →
          (RefreshMode.always = RefreshMode.always ∨
            (RefreshMode.always = RefreshMode.missing ∧
              readHistoryForScope followerEnv sampleScope () = [])) →
          out.result = readHistoryForScope followerEnv sampleScope () ∧
          out.cache.history =
            some (readHistoryForScope followerEnv sampleScope ()) ∧
          out.cache.lastPingAt = 1)) :=
  c2_nonleader_no_probe followerEnv sampleScope RefreshMode.always
    { history := none, lastPingAt := 0, inflight := none } () 0 1 2 rfl

/-- C3 witness: a concrete refresh call whose election throws. -/
theorem c3_election_failure_falls_back_witness :
    loadSnapshotForScope electionDownEnv sampleScope RefreshMode.always
        { history := none, lastPingAt := 0, inflight := none } () 0 1 2 =
      .ok { result := readHistoryForScope electionDownEnv sampleScope (),
            cache := { history := none, lastPingAt := 0, inflight := none },
            store := (), probeTrace := [], appendTrace := [] } :=
  c3_election_failure_falls_back electionDownEnv sampleScope RefreshMode.always
    { history := none, lastPingAt := 0, inflight := none } () 0 1 2
    "lease store unreachable" rfl (by decide) (by decide) (Or.inl rfl)

/-- C4 witness: a concrete fresh-cache leader call. -/
theorem c4_fresh_leader_short_circuit_witness :
    loadSnapshotForScope leaderEnv sampleScope RefreshMode.always
        { history := some [("a", [])], lastPingAt := 0, inflight := none } ()
        10000 10001 10002 =
      .ok { result := [("a", [])],
            cache := { history := some [("a", [])], lastPingAt := 0,
                       inflight := none },
            store := (), probeTrace := [], appendTrace := [] } :=
  c4_fresh_leader_short_circuit leaderEnv sampleScope
    { history := some [("a", [])], lastPingAt := 0, inflight := none } ()
    10000 10001 10002 [("a", [])] (by decide) (by decide) rfl rfl rfl
    (by decide)

/-- Attaching an official status never changes the display name. -/
lemma attachOfficialStatus_name (off : String → Option String) (r : CheckResult) :
    (attachOfficialStatus off r).name = r.name := by
  unfold attachOfficialStatus
  cases off r.type <;> rfl

/-- Attaching an official status never changes the id. -/
lemma attachOfficialStatus_id (off : String → Option String) (r : CheckResult) :
    (attachOfficialStatus off r).id = r.id := by
  unfold attachOfficialStatus
  cases off r.type <;> rfl

/-- Attaching an official status never changes the probe status. -/
lemma attachOfficialStatus_status (off : String → Option String)
    (r : CheckResult) : (attachOfficialStatus off r).status = r.status := by
  unfold attachOfficialStatus
  cases off r.type <;> rfl

/-- Attaching an official status never changes the latency. -/
lemma attachOfficialStatus_latencyMs (off : String → Option String)
    (r : CheckResult) : (attachOfficialStatus off r).latencyMs = r.latencyMs := by
  unfold attachOfficialStatus
  cases off r.type <;> rfl

/-- The (id, display-name) key sequence fed to the sort of
`buildProviderTimelines`, before sorting: it depends only on the history and
the maintenance configs, not on the official-status lookup or the clock. -/
lemma timeline_presort_keys (off : String → Option String) (nowIso : String)
    (history : HistorySnapshot) (maintenanceConfigs : List ProviderConfig) :
    (timelinesBeforeSort off nowIso history maintenanceConfigs).map
        (fun t : ProviderTimeline => (t.id, t.latest.name)) =
      (history.filterMap fun e =>
        match e.2 with
        | [] => none
        | item0 :: _ => some (e.1, item0.name)) ++
      maintenanceConfigs.map fun c => (c.id, c.name) := by
  unfold timelinesBeforeSort
  rw [List.map_append, List.map_filterMap, List.map_map]
  congr 1
  · congr 1
    funext e
    rcases e with ⟨k, items⟩
    cases items with
    | nil => rfl
    | cons item0 rest => simp [attachOfficialStatus_name]
  · apply List.map_congr_left
    intro c _
    simp [createMaintenanceTimeline, Function.comp, attachOfficialStatus_name]

/-- C7: the output order of `buildProviderTimelines` is sorted ascending by
the latest result's display name under the locale comparison, and the ordered
(id, name) sequence is a function of the history and maintenance-config
inputs alone — calls differing in the official-status lookup or in the clock
produce the timelines in identical order. -/
theorem c7_timeline_order_deterministic (lc : String → String → Int)
    (hTotal : ∀ a b, lc a b ≤ 0 ∨ lc b a ≤ 0)
    (hTrans : ∀ a b c, lc a b ≤ 0 → lc b c ≤ 0 → lc a c ≤ 0)
    (history : HistorySnapshot) (maintenanceConfigs : List ProviderConfig)
    (off1 off2 : String → Option String) (t1 t2 : String) :
    List.Pairwise
        (fun a b : ProviderTimeline => lc a.latest.name b.latest.name ≤ 0)
        (buildProviderTimelines off1 lc t1 history maintenanceConfigs) ∧
      (buildProviderTimelines off1 lc t1 history maintenanceConfigs).map
          (fun t => (t.id, t.latest.name)) =
        (buildProviderTimelines off2 lc t2 history maintenanceConfigs).map
          (fun t => (t.id, t.latest.name)) := by
  constructor
  · have hs := @List.sorted_mergeSort ProviderTimeline (byLatestName lc)
      (fun a b c hab hbc => by
        simp only [byLatestName, decide_eq_true_eq] at *
        exact hTrans _ _ _ hab hbc)
      (fun a b => by
        simp only [byLatestName, Bool.or_eq_true, decide_eq_true_eq]
        exact hTotal _ _)
      (timelinesBeforeSort off1 t1 history maintenanceConfigs)
    unfold buildProviderTimelines timelinesBeforeSort
    unfold timelinesBeforeSort at hs
    exact hs.imp fun h => by
      simpa [byLatestName, decide_eq_true_eq] using h
  · unfold buildProviderTimelines
    have h1 := @List.map_mergeSort ProviderTimeline (String × String)
      (byLatestName lc) (fun p q => decide (lc p.2 q.2 ≤ 0))
      (fun t => (t.id, t.latest.name))
      (timelinesBeforeSort off1 t1 history maintenanceConfigs)
      (fun a _ b _ => rfl)
    have h2 := @List.map_mergeSort ProviderTimeline (String × String)
      (byLatestName lc) (fun p q => decide (lc p.2 q.2 ≤ 0))
      (fun t => (t.id, t.latest.name))
      (timelinesBeforeSort off2 t2 history maintenanceConfigs)
      (fun a _ b _ => rfl)
    rw [h1, h2, timeline_presort_keys, timeline_presort_keys]

/-- C7 witness: concrete timelines build with a constant locale comparison. -/
theorem c7_timeline_order_deterministic_witness :
    List.Pairwise
        (fun a b : ProviderTimeline =>
          (fun _ _ => (0 : Int)) a.latest.name b.latest.name ≤ 0)
        (buildProviderTimelines (fun _ => none) (fun _ _ => 0) "t0"
          [("a", [])] [sampleConfigA]) ∧
      (buildProviderTimelines (fun _ => none) (fun _ _ => 0) "t0"
          [("a", [])] [sampleConfigA]).map (fun t => (t.id, t.latest.name)) =
        (buildProviderTimelines (fun _ => some "up") (fun _ _ => 0) "t1"
            [("a", [])] [sampleConfigA]).map
          (fun t => (t.id, t.latest.name)) :=
  c7_timeline_order_deterministic (fun _ _ => 0)
    (fun _ _ => Or.inl (le_refl 0)) (fun _ _ _ _ _ => le_refl 0)
    [("a", [])] [sampleConfigA] (fun _ => none) (fun _ => some "up") "t0" "t1"

/-- C8: for a scope whose config set is an active config `A` plus a
maintenance-flagged config `B`, with empty history, a cold cache and refresh
mode `missing`, the probing capability is called exactly once with `[A]`
only, the results are appended once, and the resulting timelines are exactly
two entries: one for `A` whose latest is the (status-enriched) real probe
result, and one synthesized for `B` with status `maintenance`, null latency
and an empty item list. -/
theorem c8_missing_mode_probe_scenario {Store : Type} (env : SnapshotEnv Store)
    (scope : SnapshotScope) (cache : PingCacheEntry) (store : Store)
    (now nlNow refNow : Int) (off : String → Option String)
    (lc : String → String → Int) (nowIso : String)
    (A B : ProviderConfig) (r : CheckResult)
    (hActive : scope.activeConfigs = [A]) (hIds : scope.allowedIds ≠ [])
    (hEnsure : env.ensurePollerLeadership = .ok ())
    (hLeader : env.isPollerLeader = true)
    (hCold : cache.history = none) (hNoInflight : cache.inflight = none)
    (hFetch0 : env.storeFetch store scope.allowedIds scope.limitPerConfig = [])
    (hProbe : env.runProviderChecks [A] = [r])
    (hFetch1 : env.storeFetch (env.storeAppend store [r]) scope.allowedIds
      scope.limitPerConfig = [(A.id, [r])]) :
    loadSnapshotForScope env scope RefreshMode.missing cache store now nlNow
        refNow =
      .ok { result := [(A.id, [r])],
            cache := { history := some [(A.id, [r])], lastPingAt := refNow,
                       inflight := none },
            store := env.storeAppend store [r],
            probeTrace := [[A]], appendTrace := [[r]] } ∧
      (buildProviderTimelines off lc nowIso [(A.id, [r])] [B]).length = 2 ∧
      ({ id := A.id, items := [r], latest := attachOfficialStatus off r } :
          ProviderTimeline) ∈
        buildProviderTimelines off lc nowIso [(A.id, [r])] [B] ∧
      createMaintenanceTimeline off nowIso B ∈
        buildProviderTimelines off lc nowIso [(A.id, [r])] [B] ∧
      (createMaintenanceTimeline off nowIso B).items = [] ∧
      (createMaintenanceTimeline off nowIso B).latest.status =
        CheckStatus.maintenance ∧
      (createMaintenanceTimeline off nowIso B).latest.latencyMs = none := by
  have hReadEmpty : readHistoryForScope env scope store = [] := by
    unfold readHistoryForScope
    rw [if_neg hIds]
    exact hFetch0
  refine ⟨?_, ?_, ?_, ?_, rfl, ?_, ?_⟩
  · unfold loadSnapshotForScope
    rw [if_neg hIds]
    have hA : scope.activeConfigs ≠ [] := by rw [hActive]; simp
    simp only [hReadEmpty, hActive, hEnsure, hLeader, hCold, hNoInflight,
      hProbe, hFetch1]
    simp [readHistoryForScope, hIds, hA, hFetch1, hProbe, hActive]
  · unfold buildProviderTimelines
    rw [List.length_mergeSort]
    rfl
  · unfold buildProviderTimelines
    rw [(List.mergeSort_perm _ (byLatestName lc)).mem_iff]
    unfold timelinesBeforeSort
    simp
  · unfold buildProviderTimelines
    rw [(List.mergeSort_perm _ (byLatestName lc)).mem_iff]
    unfold timelinesBeforeSort
    simp
  · show (attachOfficialStatus off _).status = CheckStatus.maintenance
    rw [attachOfficialStatus_status]
  · show (attachOfficialStatus off _).latencyMs = none
    rw [attachOfficialStatus_latencyMs]

/-- C8 witness: the scenario at concrete values. -/
theorem c8_missing_mode_probe_scenario_witness :
    loadSnapshotForScope c8Env sampleScope RefreshMode.missing
        { history := none, lastPingAt := 0, inflight := none } 0 5 6 7 =
      .ok { result := [(sampleConfigA.id, [c8Result])],
            cache := { history := some [(sampleConfigA.id, [c8Result])],
                       lastPingAt := 7, inflight := none },
            store := c8Env.storeAppend 0 [c8Result],
            probeTrace := [[sampleConfigA]], appendTrace := [[c8Result]] } ∧
      (buildProviderTimelines (fun _ => none) (fun _ _ => 0) "t0"
          [(sampleConfigA.id, [c8Result])] [maintenanceConfigB]).length = 2 ∧
      ({ id := sampleConfigA.id, items := [c8Result],
         latest := attachOfficialStatus (fun _ => none) c8Result } :
          ProviderTimeline) ∈
        buildProviderTimelines (fun _ => none) (fun _ _ => 0) "t0"
          [(sampleConfigA.id, [c8Result])] [maintenanceConfigB] ∧
      createMaintenanceTimeline (fun _ => none) "t0" maintenanceConfigB ∈
        buildProviderTimelines (fun _ => none) (fun _ _ => 0) "t0"
          [(sampleConfigA.id, [c8Result])] [maintenanceConfigB] ∧
      (createMaintenanceTimeline (fun _ => none) "t0" maintenanceConfigB).items =
        [] ∧
      (createMaintenanceTimeline (fun _ => none) "t0"
          maintenanceConfigB).latest.status = CheckStatus.maintenance ∧
      (createMaintenanceTimeline (fun _ => none) "t0"
          maintenanceConfigB).latest.latencyMs = none :=
  c8_missing_mode_probe_scenario c8Env sampleScope
    { history := none, lastPingAt := 0, inflight := none } 0 5 6 7
    (fun _ => none) (fun _ _ => 0) "t0" sampleConfigA maintenanceConfigB
    c8Result rfl (by decide) rfl rfl rfl rfl rfl rfl rfl

set_option maxRecDepth 40000 in
/-- C6 counterexample: two dashboard payloads identical except for one
result's message (so the claim says their ETags must differ) whose ETags
coincide — the 32-bit rolling hash collides. -/
theorem c6_etag_message_collision :
    ((c6Payload "5sp7c52l").providerTimelines.map fun t => t.latest.message) ≠
        ((c6Payload "ehb69i66").providerTimelines.map fun t =>
          t.latest.message) ∧
      buildDashboardEtag (c6Payload "5sp7c52l") =
        buildDashboardEtag (c6Payload "ehb69i66") := by
  constructor
  · decide
  · decide

/-- Characters hold BMP/astral code points, so their codes are below `2^32`. -/
lemma char_toNat_lt (c : Char) : c.toNat < 4294967296 := by
  have h := c.val.val.isLt
  simpa [Char.toNat, UInt32.toNat, UInt32.size] using h

/-- Reducing modulo `2^32` before or after the XOR with a character code is
the same. -/
lemma xor_mod_two_pow_32 (A c : Nat) (hc : c < 4294967296) :
    (A % 4294967296) ^^^ c = (A ^^^ c) % 4294967296 := by
  have h32 : (4294967296 : Nat) = 2 ^ 32 := by norm_num
  symm
  apply Nat.eq_of_testBit_eq
  intro i
  rw [h32, Nat.testBit_mod_two_pow, Nat.testBit_xor, Nat.testBit_xor,
    Nat.testBit_mod_two_pow]
  rcases lt_or_ge i 32 with h | h
  · simp [h]
  · have hcb : c.testBit i = false := by
      apply Nat.testBit_lt_two_pow
      calc c < 2 ^ 32 := by omega
        _ ≤ 2 ^ i := Nat.pow_le_pow_right (by norm_num) h
    simp [hcb, Nat.not_lt.2 h]

/-- C6 (amended): the dashboard ETag is a deterministic function of the
payload with `generatedAt` removed — identical underlying data yields an
identical ETag — and `generateETag` computes exactly the rolling hash the
specification describes (seed 5381, `hash = ((hash << 5) + hash) XOR
charCode` per character, unsigned 32-bit, hex-encoded).  (Changing a
result's status, latency or message changes the serialized payload, but by
`c6_etag_message_collision` the 32-bit hash may collide, so the ETag need
not change.) -/
theorem c6_etag_deterministic_and_hash_conforms :
    (∀ d1 d2 : DashboardData,
        ({ d1 with generatedAt := 0 } : DashboardData) =
          { d2 with generatedAt := 0 } →
        buildDashboardEtag d1 = buildDashboardEtag d2) ∧
      ∀ s : String, generateETag s = specFingerprint s := by
  constructor
  · intro d1 d2 h
    have e1 : dashboardEtagPayloadJson d1 =
        dashboardEtagPayloadJson { d1 with generatedAt := 0 } := rfl
    have e2 : dashboardEtagPayloadJson d2 =
        dashboardEtagPayloadJson { d2 with generatedAt := 0 } := rfl
    exact congrArg (fun j => generateETag (Json.render j))
      (e1.trans ((congrArg dashboardEtagPayloadJson h).trans e2.symm))
  · intro s
    unfold generateETag specFingerprint
    have hstep :
        (fun hash c : _ => (((hash <<< 5) + hash) % 4294967296) ^^^ c.toNat) =
          fun (hash : Nat) (c : Char) =>
            (((hash <<< 5) + hash) ^^^ c.toNat) % 4294967296 := by
      funext hash c
      exact xor_mod_two_pow_32 ((hash <<< 5) + hash) c.toNat (char_toNat_lt c)
    rw [hstep]

/-- C6 witness: determinism at a concrete payload pair differing only in
`generatedAt`, and hash conformance at a concrete string. -/
theorem c6_etag_deterministic_witness :
    buildDashboardEtag (c6Payload "ok") =
        buildDashboardEtag { c6Payload "ok" with generatedAt := 5 } ∧
      generateETag "abc" = specFingerprint "abc" :=
  ⟨c6_etag_deterministic_and_hash_conforms.1 (c6Payload "ok")
      { c6Payload "ok" with generatedAt := 5 } rfl,
    c6_etag_deterministic_and_hash_conforms.2 "abc"⟩

/-- C9: on a cache miss with an in-flight prefetch for the key, whose request
resolves with data, `fetchWithCache` awaits and reuses that in-flight
request's result — it returns that data, marked as from cache, and issues no
network request of its own. -/
theorem c9_miss_reuses_inflight_prefetch (now : Int) (foreNet : NetResponse)
    (p : PendingFetch) (revalidateIfFresh : Bool) (d : DashboardData)
    (hVal : p.value = some d) :
    fetchWithCache now foreNet none (some p) false revalidateIfFresh =
      { result := .ok { data := d, fromCache := true, isRevalidating := false }
        cacheAtReturn := p.cacheAfter
        networkRequests := 0 } := by
  unfold fetchWithCache
  simp [hVal]

/-- C9 witness: a concrete miss that joins a resolved prefetch. -/
theorem c9_miss_reuses_inflight_prefetch_witness :
    fetchWithCache 0
        { status304 := false, ok := true, data := c6Payload "net",
          etag := some "\"1\"" }
        none
        (some { value := some (c6Payload "pre"), cacheAfter := none })
        false false =
      { result := .ok { data := c6Payload "pre", fromCache := true,
                        isRevalidating := false }
        cacheAtReturn := none
        networkRequests := 0 } :=
  c9_miss_reuses_inflight_prefetch 0
    { status304 := false, ok := true, data := c6Payload "net",
      etag := some "\"1\"" }
    { value := some (c6Payload "pre"), cacheAfter := none } false
    (c6Payload "pre") rfl

namespace SnapshotMachine

/-- Case split for a lookup in an updated task list. -/
lemma set_lookup_cases {l : List TaskState} {tid j : Nat} {a ts' : TaskState}
    (h : (l.set tid ts')[j]? = some a) :
    (tid = j ∧ a = ts' ∧ tid < l.length) ∨ (tid ≠ j ∧ l[j]? = some a) := by
  by_cases hj : tid = j
  · subst hj
    rw [List.getElem?_set] at h
    simp only [if_pos rfl] at h
    by_cases hl : tid < l.length
    · rw [if_pos hl] at h
      exact Or.inl ⟨rfl, (Option.some.injEq _ _ ▸ h).symm, hl⟩
    · rw [if_neg hl] at h
      cases h
  · exact Or.inr ⟨hj, by rwa [List.getElem?_set_ne hj] at h⟩

/-- The initial state satisfies the invariant. -/
lemma inv_init {Store : Type} (env : SnapshotEnv Store)
    (scope : SnapshotScope) (n : Nat) (store : Store) (clock lastPing : Int) :
    Inv env scope (initState Store n store clock lastPing) := by
  have hlook : ∀ (j : Nat) (ts : TaskState),
      (initState Store n store clock lastPing).tasks[j]? = some ts →
      ts = { phase := .start, savedNow := 0, resolved := none } := by
    intro j ts h
    simp only [initState, List.getElem?_replicate] at h
    split at h
    · exact (Option.some.injEq _ _ ▸ h).symm
    · cases h
  refine ⟨?_, ?_, ?_, ?_, Or.inl rfl, Or.inl rfl, ?_, ?_, ?_, ?_, ?_, ?_,
    ?_, ?_, ?_⟩
  · intro j ts h
    rw [hlook j ts h]
    rfl
  · intro j h
    simp [initState] at h
  · intro j ts h hP
    rw [hlook j ts h] at hP
    simp [TaskPhase.ownerish] at hP
  · intro j ts h hP
    rw [hlook j ts h] at hP
    cases hP
  · intro h
    simp [initState] at h
  · intro h
    simp [initState] at h
  · intro j ts h hP
    rfl
  · intro _
    exact ⟨rfl, rfl, rfl, fun j ts h => by rw [hlook j ts h]; rfl⟩
  · intro _
    exact ⟨rfl, fun j ts h => by rw [hlook j ts h]; exact ⟨rfl, rfl⟩⟩
  · intro hc
    simp [initState] at hc
  · intro j ts h hP
    rw [hlook j ts h] at hP
    simp at hP
  · intro hc
    simp [initState] at hc
  · intro j ts h hr
    rw [hlook j ts h] at hr
    simp at hr

/-- Invariant preservation for a step that only moves a (non-owner,
already-started) task to a new non-owner phase. -/
lemma inv_upd_phase {Store : Type} {env : SnapshotEnv Store}
    {scope : SnapshotScope} {σ : MState Store} (hInv : Inv env scope σ)
    {tid : Nat} {ts : TaskState} (hts : σ.tasks[tid]? = some ts)
    {p : TaskPhase}
    (hOldStart : ts.phase ≠ TaskPhase.start)
    (hOldOwn : ts.phase.ownerish = false)
    (hAllowed : p.allowedPhase = true)
    (hNewOwn : p.ownerish = false)
    (hQuietOk : σ.probeTrace = [] → p.quiet = true)
    (hPreAppOk : σ.appendTrace = [] → p.preAppend = true) :
    Inv env scope (upd σ tid { ts with phase := p }) := by
  have hlen : tid < σ.tasks.length := (List.getElem?_eq_some_iff.1 hts).1
  have hnew : (σ.tasks.set tid { ts with phase := p })[tid]? =
      some { ts with phase := p } := List.getElem?_set_self hlen
  refine ⟨?_, ?_, ?_, ?_, hInv.probeShape, hInv.appendShape, hInv.probeBusy,
    hInv.appendBusy, ?_, ?_, ?_, ?_, ?_, ?_, ?_⟩
  · intro j ts2 h
    rcases set_lookup_cases h with ⟨rfl, rfl, _⟩ | ⟨_, h2⟩
    · exact hAllowed
    · exact hInv.phasesOk j ts2 h2
  · intro j hj
    obtain ⟨tso, hjl, hown⟩ := hInv.ownerOfInflight j hj
    by_cases hje : tid = j
    · subst hje
      rw [hts] at hjl
      cases hjl
      rw [hOldOwn] at hown
      cases hown
    · refine ⟨tso, ?_, hown⟩
      show (σ.tasks.set tid { ts with phase := p })[j]? = some tso
      rw [List.getElem?_set_ne hje]
      exact hjl
  · intro j ts2 h hown
    rcases set_lookup_cases h with ⟨rfl, rfl, _⟩ | ⟨hne, h2⟩
    · have hp2 : ({ ts with phase := p } : TaskState).phase = p := rfl
      rw [hp2, hNewOwn] at hown
      cases hown
    · exact hInv.ownerishHasInflight j ts2 h2 hown
  · intro j ts2 h hP
    rcases set_lookup_cases h with ⟨rfl, rfl, _⟩ | ⟨hne, h2⟩
    · have hp2 : p = TaskPhase.finalizeWait := hP
      rw [hp2] at hNewOwn
      simp [TaskPhase.ownerish] at hNewOwn
    · exact hInv.resolvedAtFinalize j ts2 h2 hP
  · intro j ts2 h hP
    rcases set_lookup_cases h with ⟨rfl, rfl, _⟩ | ⟨hne, h2⟩
    · have hp2 : p = TaskPhase.probeWait := hP
      rw [hp2] at hNewOwn
      simp [TaskPhase.ownerish] at hNewOwn
    · exact hInv.probeWaitClean j ts2 h2 hP
  · intro h
    obtain ⟨h1, h2, h3, h4⟩ := hInv.noProbeClean h
    refine ⟨h1, h2, h3, ?_⟩
    intro j ts2 hl
    rcases set_lookup_cases hl with ⟨rfl, rfl, _⟩ | ⟨hne, hl2⟩
    · exact hQuietOk h
    · exact h4 j ts2 hl2
  · intro h
    obtain ⟨h1, h2⟩ := hInv.noAppendClean h
    refine ⟨h1, ?_⟩
    intro j ts2 hl
    rcases set_lookup_cases hl with ⟨rfl, rfl, _⟩ | ⟨hne, hl2⟩
    · exact ⟨(h2 _ ts hts).1, hPreAppOk h⟩
    · exact h2 j ts2 hl2
  · intro hc j ts2 hl hP
    rcases set_lookup_cases hl with ⟨rfl, rfl, _⟩ | ⟨hne, hl2⟩
    · exact hInv.freshAll hc _ ts hts hOldStart
    · exact hInv.freshAll hc j ts2 hl2 hP
  · intro j ts2 hl hP
    rcases set_lookup_cases hl with ⟨rfl, rfl, _⟩ | ⟨hne, hl2⟩
    · exact hInv.savedLeClock _ ts hts hOldStart
    · exact hInv.savedLeClock j ts2 hl2 hP
  · intro hc
    obtain ⟨j, tsr, hjl, hr⟩ := hInv.historyResolved hc
    by_cases hje : tid = j
    · subst hje
      rw [hts] at hjl
      cases hjl
      exact ⟨tid, { ts with phase := p }, hnew, hr⟩
    · refine ⟨j, tsr, ?_, hr⟩
      show (σ.tasks.set tid { ts with phase := p })[j]? = some tsr
      rw [List.getElem?_set_ne hje]
      exact hjl
  · intro j ts2 hl hr
    rcases set_lookup_cases hl with ⟨rfl, rfl, _⟩ | ⟨hne, hl2⟩
    · exact hInv.resolvedHistory _ ts hts hr
    · exact hInv.resolvedHistory j ts2 hl2 hr

/-- A task existing at index `tid` is a member of the task list. -/
lemma mem_of_lookup {σ : MState Store} {tid : Nat} {ts : TaskState}
    (hts : σ.tasks[tid]? = some ts) : ts ∈ σ.tasks :=
  List.mem_iff_getElem?.2 ⟨tid, hts⟩

/-- Invariant preservation for the synchronous prologue of a freshly issued
call, in `always` mode with a nonempty id set.  This is the one step that
needs the issuance condition: were the cache already refreshed, the new
`savedNow` could exceed `lastPingAt`. -/
lemma inv_prologue {Store : Type} {env : SnapshotEnv Store}
    {scope : SnapshotScope} {σ : MState Store} (hInv : Inv env scope σ)
    (hTr : TraceCond σ)
    {tid : Nat} {ts : TaskState} (hts : σ.tasks[tid]? = some ts)
    (hStart : ts.phase = TaskPhase.start) :
    Inv env scope
      (upd σ tid
        { ts with phase := TaskPhase.preReadWait, savedNow := σ.clock }) := by
  have hlen : tid < σ.tasks.length := (List.getElem?_eq_some_iff.1 hts).1
  have hOldOwn : ts.phase.ownerish = false := by
    rw [hStart]; rfl
  have hNoHistory : σ.cacheHistory = none := by
    by_contra hc
    obtain ⟨j, tsr, hjl, hr⟩ := hInv.historyResolved hc
    exact hTr ⟨tsr, mem_of_lookup hjl, hr⟩ ts (mem_of_lookup hts) hStart
  have hnew : (σ.tasks.set tid
      { ts with phase := TaskPhase.preReadWait, savedNow := σ.clock })[tid]? =
      some { ts with phase := TaskPhase.preReadWait, savedNow := σ.clock } :=
    List.getElem?_set_self hlen
  refine ⟨?_, ?_, ?_, ?_, hInv.probeShape, hInv.appendShape, hInv.probeBusy,
    hInv.appendBusy, ?_, ?_, ?_, ?_, ?_, ?_, ?_⟩
  · intro j ts2 h
    rcases set_lookup_cases h with ⟨rfl, rfl, _⟩ | ⟨_, h2⟩
    · rfl
    · exact hInv.phasesOk j ts2 h2
  · intro j hj
    obtain ⟨tso, hjl, hown⟩ := hInv.ownerOfInflight j hj
    by_cases hje : tid = j
    · subst hje
      rw [hts] at hjl
      cases hjl
      rw [hOldOwn] at hown
      cases hown
    · refine ⟨tso, ?_, hown⟩
      show (σ.tasks.set tid _)[j]? = some tso
      rw [List.getElem?_set_ne hje]
      exact hjl
  · intro j ts2 h hown
    rcases set_lookup_cases h with ⟨rfl, rfl, _⟩ | ⟨hne, h2⟩
    · cases hown
    · exact hInv.ownerishHasInflight j ts2 h2 hown
  · intro j ts2 h hP
    rcases set_lookup_cases h with ⟨rfl, rfl, _⟩ | ⟨hne, h2⟩
    · cases hP
    · exact hInv.resolvedAtFinalize j ts2 h2 hP
  · intro j ts2 h hP
    rcases set_lookup_cases h with ⟨rfl, rfl, _⟩ | ⟨hne, h2⟩
    · cases hP
    · exact hInv.probeWaitClean j ts2 h2 hP
  · intro h
    obtain ⟨h1, h2, h3, h4⟩ := hInv.noProbeClean h
    refine ⟨h1, h2, h3, ?_⟩
    intro j ts2 hl
    rcases set_lookup_cases hl with ⟨rfl, rfl, _⟩ | ⟨hne, hl2⟩
    · rfl
    · exact h4 j ts2 hl2
  · intro h
    obtain ⟨h1, h2⟩ := hInv.noAppendClean h
    refine ⟨h1, ?_⟩
    intro j ts2 hl
    rcases set_lookup_cases hl with ⟨rfl, rfl, _⟩ | ⟨hne, hl2⟩
    · exact ⟨(h2 _ ts hts).1, rfl⟩
    · exact h2 j ts2 hl2
  · intro hc
    rw [show (upd σ tid
        { ts with phase := TaskPhase.preReadWait, savedNow := σ.clock
        }).cacheHistory = σ.cacheHistory from rfl, hNoHistory] at hc
    exact absurd rfl hc
  · intro j ts2 hl hP
    rcases set_lookup_cases hl with ⟨rfl, rfl, _⟩ | ⟨hne, hl2⟩
    · exact le_refl σ.clock
    · exact hInv.savedLeClock j ts2 hl2 hP
  · intro hc
    rw [show (upd σ tid
        { ts with phase := TaskPhase.preReadWait, savedNow := σ.clock
        }).cacheHistory = σ.cacheHistory from rfl, hNoHistory] at hc
    exact absurd rfl hc
  · intro j ts2 hl hr
    rcases set_lookup_cases hl with ⟨rfl, rfl, _⟩ | ⟨hne, hl2⟩
    · exact hInv.resolvedHistory _ ts hts hr
    · exact hInv.resolvedHistory j ts2 hl2 hr

/-- Invariant preservation when a task finds a stale cold cache and no
in-flight promise, and becomes the owner: the probe call starts, the
in-flight slot is taken. -/
lemma inv_becomeOwner {Store : Type} {env : SnapshotEnv Store}
    {scope : SnapshotScope} {σ : MState Store} (hInv : Inv env scope σ)
    {tid : Nat} {ts : TaskState} (hts : σ.tasks[tid]? = some ts)
    (hPh : ts.phase = TaskPhase.ensureWait)
    (hNoInf : σ.inflight = none) (hNoHist : σ.cacheHistory = none) :
    Inv env scope
      { σ with tasks := σ.tasks.set tid { ts with phase := TaskPhase.probeWait },
               inflight := some tid,
               probeTrace := σ.probeTrace ++ [scope.activeConfigs] } := by
  have hlen : tid < σ.tasks.length := (List.getElem?_eq_some_iff.1 hts).1
  have hnew : (σ.tasks.set tid { ts with phase := TaskPhase.probeWait })[tid]? =
      some { ts with phase := TaskPhase.probeWait } :=
    List.getElem?_set_self hlen
  have hProbeNil : σ.probeTrace = [] := by
    by_contra hne
    rcases hInv.probeBusy hne with h | h
    · exact h hNoInf
    · exact h hNoHist
  have hAppendNil : σ.appendTrace = [] := by
    by_contra hne
    rcases hInv.appendBusy hne with h | h
    · exact h hNoInf
    · exact h hNoHist
  refine ⟨?_, ?_, ?_, ?_, ?_, ?_, ?_, ?_, ?_, ?_, ?_, ?_, ?_, ?_, ?_⟩
  · intro j ts2 h
    rcases set_lookup_cases h with ⟨rfl, rfl, _⟩ | ⟨_, h2⟩
    · rfl
    · exact hInv.phasesOk j ts2 h2
  · intro j hj
    have hj2 : tid = j := by
      have : some tid = some j := hj
      exact Option.some.injEq _ _ ▸ this
    subst hj2
    exact ⟨{ ts with phase := TaskPhase.probeWait }, hnew, rfl⟩
  · intro j ts2 h hown
    rcases set_lookup_cases h with ⟨rfl, rfl, _⟩ | ⟨hne, h2⟩
    · rfl
    · have := hInv.ownerishHasInflight j ts2 h2 hown
      rw [hNoInf] at this
      cases this
  · intro j ts2 h hP
    rcases set_lookup_cases h with ⟨rfl, rfl, _⟩ | ⟨hne, h2⟩
    · cases hP
    · exact hInv.resolvedAtFinalize j ts2 h2 hP
  · rw [show ({ σ with
        tasks := σ.tasks.set tid { ts with phase := TaskPhase.probeWait },
        inflight := some tid,
        probeTrace := σ.probeTrace ++ [scope.activeConfigs] } :
        MState Store).probeTrace =
      σ.probeTrace ++ [scope.activeConfigs] from rfl, hProbeNil]
    exact Or.inr rfl
  · exact hInv.appendShape
  · intro _
    exact Or.inl (by simp)
  · intro _
    exact Or.inl (by simp)
  · intro j ts2 h hP
    exact hAppendNil
  · intro h
    rw [show ({ σ with
        tasks := σ.tasks.set tid { ts with phase := TaskPhase.probeWait },
        inflight := some tid,
        probeTrace := σ.probeTrace ++ [scope.activeConfigs] } :
        MState Store).probeTrace =
      σ.probeTrace ++ [scope.activeConfigs] from rfl] at h
    simp at h
  · intro h
    refine ⟨hNoHist, ?_⟩
    intro j ts2 hl
    rcases set_lookup_cases hl with ⟨rfl, rfl, _⟩ | ⟨hne, hl2⟩
    · exact ⟨(hInv.noAppendClean hAppendNil).2 _ ts hts |>.1, rfl⟩
    · exact (hInv.noAppendClean hAppendNil).2 j ts2 hl2
  · intro hc
    exact absurd rfl (hNoHist ▸ hc)
  · intro j ts2 hl hP
    rcases set_lookup_cases hl with ⟨rfl, rfl, _⟩ | ⟨hne, hl2⟩
    · exact hInv.savedLeClock _ ts hts (by rw [hPh]; simp)
    · exact hInv.savedLeClock j ts2 hl2 hP
  · intro hc
    exact absurd rfl (hNoHist ▸ hc)
  · intro j ts2 hl hr
    rcases set_lookup_cases hl with ⟨rfl, rfl, _⟩ | ⟨hne, hl2⟩
    · exact hInv.resolvedHistory _ ts hts hr
    · exact hInv.resolvedHistory j ts2 hl2 hr

/-- Invariant preservation when the probe completes and the append starts. -/
lemma inv_probeResume {Store : Type} {env : SnapshotEnv Store}
    {scope : SnapshotScope} {σ : MState Store} (hInv : Inv env scope σ)
    {tid : Nat} {ts : TaskState} (hts : σ.tasks[tid]? = some ts)
    (hPh : ts.phase = TaskPhase.probeWait) :
    Inv env scope
      { σ with tasks := σ.tasks.set tid { ts with phase := TaskPhase.appendWait },
               store := env.storeAppend σ.store
                 (env.runProviderChecks scope.activeConfigs),
               appendTrace := σ.appendTrace ++
                 [env.runProviderChecks scope.activeConfigs] } := by
  have hlen : tid < σ.tasks.length := (List.getElem?_eq_some_iff.1 hts).1
  have hnew : (σ.tasks.set tid { ts with phase := TaskPhase.appendWait })[tid]? =
      some { ts with phase := TaskPhase.appendWait } :=
    List.getElem?_set_self hlen
  have hInf : σ.inflight = some tid :=
    hInv.ownerishHasInflight tid ts hts (by rw [hPh]; rfl)
  have hAppendNil : σ.appendTrace = [] := hInv.probeWaitClean tid ts hts hPh
  have hOwnerUnique : ∀ (j : Nat) (ts2 : TaskState), σ.tasks[j]? = some ts2 →
      ts2.phase.ownerish = true → j = tid := by
    intro j ts2 hl hown
    have := hInv.ownerishHasInflight j ts2 hl hown
    rw [hInf] at this
    exact (Option.some.injEq _ _ ▸ this.symm)
  refine ⟨?_, ?_, ?_, ?_, hInv.probeShape, ?_, ?_, ?_, ?_, ?_, ?_, ?_, ?_,
    ?_, ?_⟩
  · intro j ts2 h
    rcases set_lookup_cases h with ⟨rfl, rfl, _⟩ | ⟨_, h2⟩
    · rfl
    · exact hInv.phasesOk j ts2 h2
  · intro j hj
    have hj2 : j = tid := by
      have h1 : some tid = some j := hInf.symm.trans hj
      exact (Option.some.injEq _ _ ▸ h1).symm
    subst hj2
    exact ⟨{ ts with phase := TaskPhase.appendWait }, hnew, rfl⟩
  · intro j ts2 h hown
    rcases set_lookup_cases h with ⟨rfl, rfl, _⟩ | ⟨hne, h2⟩
    · exact hInf
    · exact absurd (hOwnerUnique j ts2 h2 hown).symm hne
  · intro j ts2 h hP
    rcases set_lookup_cases h with ⟨rfl, rfl, _⟩ | ⟨hne, h2⟩
    · cases hP
    · exact hInv.resolvedAtFinalize j ts2 h2 hP
  · rw [show ({ σ with
        tasks := σ.tasks.set tid { ts with phase := TaskPhase.appendWait },
        store := env.storeAppend σ.store
          (env.runProviderChecks scope.activeConfigs),
        appendTrace := σ.appendTrace ++
          [env.runProviderChecks scope.activeConfigs] } :
        MState Store).appendTrace =
      σ.appendTrace ++ [env.runProviderChecks scope.activeConfigs] from rfl,
      hAppendNil]
    exact Or.inr rfl
  · intro _
    exact Or.inl (by rw [show ({ σ with
        tasks := σ.tasks.set tid { ts with phase := TaskPhase.appendWait },
        store := env.storeAppend σ.store
          (env.runProviderChecks scope.activeConfigs),
        appendTrace := σ.appendTrace ++
          [env.runProviderChecks scope.activeConfigs] } :
        MState Store).inflight = σ.inflight from rfl, hInf]; simp)
  · intro _
    exact Or.inl (by rw [show ({ σ with
        tasks := σ.tasks.set tid { ts with phase := TaskPhase.appendWait },
        store := env.storeAppend σ.store
          (env.runProviderChecks scope.activeConfigs),
        appendTrace := σ.appendTrace ++
          [env.runProviderChecks scope.activeConfigs] } :
        MState Store).inflight = σ.inflight from rfl, hInf]; simp)
  · intro j ts2 h hP
    rcases set_lookup_cases h with ⟨rfl, rfl, _⟩ | ⟨hne, h2⟩
    · cases hP
    · exact absurd (hOwnerUnique j ts2 h2 (by rw [hP]; rfl)).symm hne
  · intro h
    have := (hInv.noProbeClean h).1
    rw [hInf] at this
    cases this
  · intro h
    have h2 : σ.appendTrace ++ [env.runProviderChecks scope.activeConfigs] =
        [] := h
    simp at h2
  · intro hc j ts2 hl hP
    rcases set_lookup_cases hl with ⟨rfl, rfl, _⟩ | ⟨hne, hl2⟩
    · exact hInv.freshAll hc _ ts hts (by rw [hPh]; simp)
    · exact hInv.freshAll hc j ts2 hl2 hP
  · intro j ts2 hl hP
    rcases set_lookup_cases hl with ⟨rfl, rfl, _⟩ | ⟨hne, hl2⟩
    · exact hInv.savedLeClock _ ts hts (by rw [hPh]; simp)
    · exact hInv.savedLeClock j ts2 hl2 hP
  · intro hc
    obtain ⟨j, tsr, hjl, hr⟩ := hInv.historyResolved hc
    by_cases hje : tid = j
    · subst hje
      rw [hts] at hjl
      cases hjl
      exact ⟨tid, { ts with phase := TaskPhase.appendWait }, hnew, hr⟩
    · refine ⟨j, tsr, ?_, hr⟩
      show (σ.tasks.set tid _)[j]? = some tsr
      rw [List.getElem?_set_ne hje]
      exact hjl
  · intro j ts2 hl hr
    rcases set_lookup_cases hl with ⟨rfl, rfl, _⟩ | ⟨hne, hl2⟩
    · exact hInv.resolvedHistory _ ts hts hr
    · exact hInv.resolvedHistory j ts2 hl2 hr

/-- Invariant preservation when the append completes and the re-read
starts. -/
lemma inv_appendResume {Store : Type} {env : SnapshotEnv Store}
    {scope : SnapshotScope} {σ : MState Store} (hInv : Inv env scope σ)
    {tid : Nat} {ts : TaskState} (hts : σ.tasks[tid]? = some ts)
    (hPh : ts.phase = TaskPhase.appendWait) :
    Inv env scope (upd σ tid { ts with phase := TaskPhase.reReadWait }) := by
  have hlen : tid < σ.tasks.length := (List.getElem?_eq_some_iff.1 hts).1
  have hnew : (σ.tasks.set tid { ts with phase := TaskPhase.reReadWait })[tid]? =
      some { ts with phase := TaskPhase.reReadWait } :=
    List.getElem?_set_self hlen
  have hInf : σ.inflight = some tid :=
    hInv.ownerishHasInflight tid ts hts (by rw [hPh]; rfl)
  have hOwnerUnique : ∀ (j : Nat) (ts2 : TaskState), σ.tasks[j]? = some ts2 →
      ts2.phase.ownerish = true → j = tid := by
    intro j ts2 hl hown
    have := hInv.ownerishHasInflight j ts2 hl hown
    rw [hInf] at this
    exact (Option.some.injEq _ _ ▸ this.symm)
  refine ⟨?_, ?_, ?_, ?_, hInv.probeShape, hInv.appendShape, hInv.probeBusy,
    hInv.appendBusy, ?_, ?_, ?_, ?_, ?_, ?_, ?_⟩
  · intro j ts2 h
    rcases set_lookup_cases h with ⟨rfl, rfl, _⟩ | ⟨_, h2⟩
    · rfl
    · exact hInv.phasesOk j ts2 h2
  · intro j hj
    have hj2 : j = tid := by
      have h1 : some tid = some j := hInf.symm.trans hj
      exact (Option.some.injEq _ _ ▸ h1).symm
    subst hj2
    exact ⟨{ ts with phase := TaskPhase.reReadWait }, hnew, rfl⟩
  · intro j ts2 h hown
    rcases set_lookup_cases h with ⟨rfl, rfl, _⟩ | ⟨hne, h2⟩
    · exact hInf
    · exact absurd (hOwnerUnique j ts2 h2 hown).symm hne
  · intro j ts2 h hP
    rcases set_lookup_cases h with ⟨rfl, rfl, _⟩ | ⟨hne, h2⟩
    · cases hP
    · exact hInv.resolvedAtFinalize j ts2 h2 hP
  · intro j ts2 h hP
    rcases set_lookup_cases h with ⟨rfl, rfl, _⟩ | ⟨hne, h2⟩
    · cases hP
    · exact absurd (hOwnerUnique j ts2 h2 (by rw [hP]; rfl)).symm hne
  · intro h
    have := (hInv.noProbeClean h).1
    rw [hInf] at this
    cases this
  · intro h
    have := ((hInv.noAppendClean h).2 _ ts hts).2
    rw [hPh] at this
    cases this
  · intro hc j ts2 hl hP
    rcases set_lookup_cases hl with ⟨rfl, rfl, _⟩ | ⟨hne, hl2⟩
    · exact hInv.freshAll hc _ ts hts (by rw [hPh]; simp)
    · exact hInv.freshAll hc j ts2 hl2 hP
  · intro j ts2 hl hP
    rcases set_lookup_cases hl with ⟨rfl, rfl, _⟩ | ⟨hne, hl2⟩
    · exact hInv.savedLeClock _ ts hts (by rw [hPh]; simp)
    · exact hInv.savedLeClock j ts2 hl2 hP
  · intro hc
    obtain ⟨j, tsr, hjl, hr⟩ := hInv.historyResolved hc
    by_cases hje : tid = j
    · subst hje
      rw [hts] at hjl
      cases hjl
      exact ⟨tid, { ts with phase := TaskPhase.reReadWait }, hnew, hr⟩
    · refine ⟨j, tsr, ?_, hr⟩
      show (σ.tasks.set tid _)[j]? = some tsr
      rw [List.getElem?_set_ne hje]
      exact hjl
  · intro j ts2 hl hr
    rcases set_lookup_cases hl with ⟨rfl, rfl, _⟩ | ⟨hne, hl2⟩
    · exact hInv.resolvedHistory _ ts hts hr
    · exact hInv.resolvedHistory j ts2 hl2 hr

/-- Invariant preservation when the owner's re-read completes: the cache
entry is updated, the promise resolves. -/
lemma inv_reReadResume {Store : Type} {env : SnapshotEnv Store}
    {scope : SnapshotScope} {σ : MState Store} (hInv : Inv env scope σ)
    {tid : Nat} {ts : TaskState} (hts : σ.tasks[tid]? = some ts)
    (hPh : ts.phase = TaskPhase.reReadWait) (s : HistorySnapshot) :
    Inv env scope
      { σ with
        tasks := σ.tasks.set tid
          { ts with phase := TaskPhase.finalizeWait, resolved := some s },
        cacheHistory := some s, lastPingAt := σ.clock } := by
  have hlen : tid < σ.tasks.length := (List.getElem?_eq_some_iff.1 hts).1
  have hnew : (σ.tasks.set tid
      { ts with phase := TaskPhase.finalizeWait, resolved := some s })[tid]? =
      some { ts with phase := TaskPhase.finalizeWait, resolved := some s } :=
    List.getElem?_set_self hlen
  have hInf : σ.inflight = some tid :=
    hInv.ownerishHasInflight tid ts hts (by rw [hPh]; rfl)
  have hOwnerUnique : ∀ (j : Nat) (ts2 : TaskState), σ.tasks[j]? = some ts2 →
      ts2.phase.ownerish = true → j = tid := by
    intro j ts2 hl hown
    have := hInv.ownerishHasInflight j ts2 hl hown
    rw [hInf] at this
    exact (Option.some.injEq _ _ ▸ this.symm)
  refine ⟨?_, ?_, ?_, ?_, hInv.probeShape, hInv.appendShape, ?_, ?_, ?_, ?_,
    ?_, ?_, ?_, ?_, ?_⟩
  · intro j ts2 h
    rcases set_lookup_cases h with ⟨rfl, rfl, _⟩ | ⟨_, h2⟩
    · rfl
    · exact hInv.phasesOk j ts2 h2
  · intro j hj
    have hj2 : j = tid := by
      have h1 : some tid = some j := hInf.symm.trans hj
      exact (Option.some.injEq _ _ ▸ h1).symm
    subst hj2
    exact ⟨{ ts with phase := TaskPhase.finalizeWait, resolved := some s },
      hnew, rfl⟩
  · intro j ts2 h hown
    rcases set_lookup_cases h with ⟨rfl, rfl, _⟩ | ⟨hne, h2⟩
    · exact hInf
    · exact absurd (hOwnerUnique j ts2 h2 hown).symm hne
  · intro j ts2 h hP
    rcases set_lookup_cases h with ⟨rfl, rfl, _⟩ | ⟨hne, h2⟩
    · simp
    · exact hInv.resolvedAtFinalize j ts2 h2 hP
  · intro _
    exact Or.inr (by simp)
  · intro _
    exact Or.inr (by simp)
  · intro j ts2 h hP
    rcases set_lookup_cases h with ⟨rfl, rfl, _⟩ | ⟨hne, h2⟩
    · cases hP
    · exact absurd (hOwnerUnique j ts2 h2 (by rw [hP]; rfl)).symm hne
  · intro h
    have := (hInv.noProbeClean h).1
    rw [hInf] at this
    cases this
  · intro h
    have := ((hInv.noAppendClean h).2 _ ts hts).2
    rw [hPh] at this
    cases this
  · intro _ j ts2 hl hP
    rcases set_lookup_cases hl with ⟨rfl, rfl, _⟩ | ⟨hne, hl2⟩
    · exact hInv.savedLeClock _ ts hts (by rw [hPh]; simp)
    · exact hInv.savedLeClock j ts2 hl2 hP
  · intro j ts2 hl hP
    rcases set_lookup_cases hl with ⟨rfl, rfl, _⟩ | ⟨hne, hl2⟩
    · exact hInv.savedLeClock _ ts hts (by rw [hPh]; simp)
    · exact hInv.savedLeClock j ts2 hl2 hP
  · intro _
    exact ⟨tid, { ts with phase := TaskPhase.finalizeWait, resolved := some s },
      hnew, by simp⟩
  · intro j ts2 hl hr
    simp

/-- Invariant preservation for the `finally` cleanup: the owner clears the
in-flight slot and returns. -/
lemma inv_finalize {Store : Type} {env : SnapshotEnv Store}
    {scope : SnapshotScope} {σ : MState Store} (hInv : Inv env scope σ)
    {tid : Nat} {ts : TaskState} (hts : σ.tasks[tid]? = some ts)
    (hPh : ts.phase = TaskPhase.finalizeWait) (v : HistorySnapshot) :
    Inv env scope
      { σ with tasks := σ.tasks.set tid { ts with phase := TaskPhase.done v },
               inflight := none } := by
  have hlen : tid < σ.tasks.length := (List.getElem?_eq_some_iff.1 hts).1
  have hnew : (σ.tasks.set tid { ts with phase := TaskPhase.done v })[tid]? =
      some { ts with phase := TaskPhase.done v } :=
    List.getElem?_set_self hlen
  have hInf : σ.inflight = some tid :=
    hInv.ownerishHasInflight tid ts hts (by rw [hPh]; rfl)
  have hres : ts.resolved ≠ none := hInv.resolvedAtFinalize tid ts hts hPh
  have hHist : σ.cacheHistory ≠ none := hInv.resolvedHistory tid ts hts hres
  have hOwnerUnique : ∀ (j : Nat) (ts2 : TaskState), σ.tasks[j]? = some ts2 →
      ts2.phase.ownerish = true → j = tid := by
    intro j ts2 hl hown
    have := hInv.ownerishHasInflight j ts2 hl hown
    rw [hInf] at this
    exact (Option.some.injEq _ _ ▸ this.symm)
  refine ⟨?_, ?_, ?_, ?_, hInv.probeShape, hInv.appendShape, ?_, ?_, ?_, ?_,
    ?_, ?_, ?_, ?_, ?_⟩
  · intro j ts2 h
    rcases set_lookup_cases h with ⟨rfl, rfl, _⟩ | ⟨_, h2⟩
    · rfl
    · exact hInv.phasesOk j ts2 h2
  · intro j hj
    cases hj
  · intro j ts2 h hown
    rcases set_lookup_cases h with ⟨rfl, rfl, _⟩ | ⟨hne, h2⟩
    · cases hown
    · exact absurd (hOwnerUnique j ts2 h2 hown).symm hne
  · intro j ts2 h hP
    rcases set_lookup_cases h with ⟨rfl, rfl, _⟩ | ⟨hne, h2⟩
    · cases hP
    · exact hInv.resolvedAtFinalize j ts2 h2 hP
  · intro _
    exact Or.inr hHist
  · intro _
    exact Or.inr hHist
  · intro j ts2 h hP
    rcases set_lookup_cases h with ⟨rfl, rfl, _⟩ | ⟨hne, h2⟩
    · cases hP
    · exact absurd (hOwnerUnique j ts2 h2 (by rw [hP]; rfl)).symm hne
  · intro h
    have := (hInv.noProbeClean h).1
    rw [hInf] at this
    cases this
  · intro h
    have := ((hInv.noAppendClean h).2 _ ts hts).2
    rw [hPh] at this
    cases this
  · intro hc j ts2 hl hP
    rcases set_lookup_cases hl with ⟨rfl, rfl, _⟩ | ⟨hne, hl2⟩
    · exact hInv.freshAll hc _ ts hts (by rw [hPh]; simp)
    · exact hInv.freshAll hc j ts2 hl2 hP
  · intro j ts2 hl hP
    rcases set_lookup_cases hl with ⟨rfl, rfl, _⟩ | ⟨hne, hl2⟩
    · exact hInv.savedLeClock _ ts hts (by rw [hPh]; simp)
    · exact hInv.savedLeClock j ts2 hl2 hP
  · intro _
    exact ⟨tid, { ts with phase := TaskPhase.done v }, hnew, hres⟩
  · intro j ts2 hl hr
    exact hHist

/-- One scheduled step preserves the invariant, in `always` mode, for a
nonempty scope, a positive poll interval, a healthy election and a leading
instance, provided no call is still unissued after a refresh completed. -/
lemma inv_stepTask {Store : Type} {env : SnapshotEnv Store}
    {scope : SnapshotScope} {σ : MState Store} (hInv : Inv env scope σ)
    (hTr : TraceCond σ)
    (hIds : scope.allowedIds ≠ []) (hActive : scope.activeConfigs ≠ [])
    (hPoll : 1 ≤ scope.pollIntervalMs)
    (hEnsure : env.ensurePollerLeadership = .ok ())
    (hLeader : env.isPollerLeader = true) (tid : Nat) :
    Inv env scope (stepTask env scope RefreshMode.always σ tid) := by
  cases hlk : σ.tasks[tid]? with
  | none =>
    simp only [stepTask, hlk]
    exact hInv
  | some ts =>
    obtain ⟨ph, sn, rv⟩ := ts
    cases ph with
    | start =>
      simp only [stepTask, hlk]
      rw [if_neg hIds]
      exact inv_prologue hInv hTr hlk rfl
    | neverReadWait =>
      have := hInv.phasesOk tid _ hlk
      cases this
    | preReadWait =>
      simp only [stepTask, hlk]
      rw [if_pos (Or.inl trivial), if_neg hActive]
      exact inv_upd_phase hInv hlk (by simp) rfl rfl rfl
        (fun _ => rfl) (fun _ => rfl)
    | ensureWait =>
      simp only [stepTask, hlk, hEnsure, hLeader]
      split
      · next hcontra => cases hcontra
      · split
        · next h2 hch =>
          have hFr : sn ≤ σ.lastPingAt :=
            hInv.freshAll (by rw [hch]; simp) tid _ hlk (by simp)
          split
          · refine inv_upd_phase hInv hlk (by simp) rfl rfl rfl ?_ ?_
            · intro hpe
              have := (hInv.noProbeClean hpe).2.1
              rw [hch] at this
              cases this
            · intro hpe
              have := (hInv.noAppendClean hpe).1
              rw [hch] at this
              cases this
          · next hstale =>
            exfalso
            apply hstale
            show sn - σ.lastPingAt < scope.pollIntervalMs
            omega
        · next hch =>
          split
          · next j hinf =>
            refine inv_upd_phase hInv hlk (by simp) rfl rfl rfl ?_
              (fun _ => rfl)
            intro hpe
            have := (hInv.noProbeClean hpe).1
            rw [hinf] at this
            cases this
          · next hinf => exact inv_becomeOwner hInv hlk rfl hinf hch
    | failReadWait =>
      have := hInv.phasesOk tid _ hlk
      cases this
    | nlReadWait =>
      have := hInv.phasesOk tid _ hlk
      cases this
    | probeWait =>
      simp only [stepTask, hlk]
      exact inv_probeResume hInv hlk rfl
    | appendWait =>
      simp only [stepTask, hlk]
      exact inv_appendResume hInv hlk rfl
    | reReadWait =>
      simp only [stepTask, hlk]
      exact inv_reReadResume hInv hlk rfl (readHistoryForScope env scope σ.store)
    | finalizeWait =>
      have hInf : σ.inflight = some tid :=
        hInv.ownerishHasInflight tid _ hlk rfl
      simp only [stepTask, hlk, hInf]
      rw [if_pos trivial]
      exact inv_finalize hInv hlk rfl (rv.getD [])
    | joinWait j =>
      simp only [stepTask, hlk]
      split
      · exact hInv
      · next tj hjl =>
        split
        · next v hres =>
          refine inv_upd_phase hInv hlk (by simp) rfl rfl rfl ?_ ?_
          · intro hpe
            have := (hInv.noProbeClean hpe).2.2.2 tid _ hlk
            cases this
          · intro hpe
            have := ((hInv.noAppendClean hpe).2 j tj hjl).1
            rw [hres] at this
            cases this
        · exact hInv
    | done v =>
      simp only [stepTask, hlk]
      exact hInv

/-- Advancing the clock preserves the invariant. -/
lemma inv_clockAdvance {Store : Type} {env : SnapshotEnv Store}
    {scope : SnapshotScope} {σ : MState Store} (hInv : Inv env scope σ)
    (dt : Nat) : Inv env scope { σ with clock := σ.clock + (dt : Int) } := by
  refine ⟨hInv.phasesOk, hInv.ownerOfInflight, hInv.ownerishHasInflight,
    hInv.resolvedAtFinalize, hInv.probeShape, hInv.appendShape,
    hInv.probeBusy, hInv.appendBusy, hInv.probeWaitClean, hInv.noProbeClean,
    hInv.noAppendClean, hInv.freshAll, ?_, hInv.historyResolved,
    hInv.resolvedHistory⟩
  intro j ts hl hP
  have h1 := hInv.savedLeClock j ts hl hP
  have h2 : (0 : Int) ≤ (dt : Int) := Int.natCast_nonneg dt
  show ts.savedNow ≤ σ.clock + (dt : Int)
  omega

/-- One command preserves the invariant. -/
lemma inv_stepCmd {Store : Type} {env : SnapshotEnv Store}
    {scope : SnapshotScope} {σ : MState Store} (hInv : Inv env scope σ)
    (hTr : TraceCond σ)
    (hIds : scope.allowedIds ≠ []) (hActive : scope.activeConfigs ≠ [])
    (hPoll : 1 ≤ scope.pollIntervalMs)
    (hEnsure : env.ensurePollerLeadership = .ok ())
    (hLeader : env.isPollerLeader = true) (c : Cmd) :
    Inv env scope (stepCmd env scope RefreshMode.always σ c) :=
  inv_stepTask (inv_clockAdvance hInv c.dt) hTr hIds hActive hPoll hEnsure
    hLeader c.tid

/-- The invariant holds along every prefix of a run whose prefixes satisfy
the issuance condition. -/
lemma inv_runCmds {Store : Type} {env : SnapshotEnv Store}
    {scope : SnapshotScope}
    (hIds : scope.allowedIds ≠ []) (hActive : scope.activeConfigs ≠ [])
    (hPoll : 1 ≤ scope.pollIntervalMs)
    (hEnsure : env.ensurePollerLeadership = .ok ())
    (hLeader : env.isPollerLeader = true) :
    ∀ (cmds : List Cmd) (σ0 : MState Store), Inv env scope σ0 →
      (∀ k, k ≤ cmds.length →
        TraceCond (runCmds env scope RefreshMode.always σ0 (cmds.take k))) →
      ∀ k, k ≤ cmds.length →
        Inv env scope (runCmds env scope RefreshMode.always σ0 (cmds.take k)) := by
  intro cmds
  induction cmds with
  | nil =>
    intro σ0 h0 _ k _
    rw [List.take_nil]
    exact h0
  | cons c rest ih =>
    intro σ0 h0 hTr k hk
    cases k with
    | zero => exact h0
    | succ k2 =>
      have hTr0 : TraceCond σ0 := hTr 0 (Nat.zero_le _)
      have hstep : Inv env scope (stepCmd env scope RefreshMode.always σ0 c) :=
        inv_stepCmd h0 hTr0 hIds hActive hPoll hEnsure hLeader c
      have hTr2 : ∀ m, m ≤ rest.length →
          TraceCond (runCmds env scope RefreshMode.always
            (stepCmd env scope RefreshMode.always σ0 c) (rest.take m)) := by
        intro m hm
        exact hTr (m + 1) (Nat.succ_le_succ hm)
      exact ih (stepCmd env scope RefreshMode.always σ0 c) hstep hTr2 k2
        (Nat.succ_le_succ_iff.1 hk)

/-- An actively refreshing phase is an owner phase. -/
lemma ownerish_of_active (ph : TaskPhase) (h : ph.isActiveRefresh = true) :
    ph.ownerish = true := by
  cases ph <;> simp_all [TaskPhase.isActiveRefresh, TaskPhase.ownerish]

/-- A quiet phase is not finished. -/
lemma not_quiet_and_done (ph : TaskPhase) (h1 : ph.quiet = true)
    (h2 : ph.isDone = true) : False := by
  cases ph <;> simp_all [TaskPhase.quiet, TaskPhase.isDone]

/-- A pre-append phase is not finished. -/
lemma not_preAppend_and_done (ph : TaskPhase) (h1 : ph.preAppend = true)
    (h2 : ph.isDone = true) : False := by
  cases ph <;> simp_all [TaskPhase.preAppend, TaskPhase.isDone]

/-- If any two positions holding a `p`-element coincide, at most one element
satisfies `p`. -/
lemma filter_length_le_one_of_unique {α : Type} (p : α → Bool) :
    ∀ (l : List α),
      (∀ (j1 j2 : Nat) (a1 a2 : α), l[j1]? = some a1 → l[j2]? = some a2 →
        p a1 = true → p a2 = true → j1 = j2) →
      (l.filter p).length ≤ 1 := by
  intro l
  induction l with
  | nil => intro _; simp
  | cons x xs ih =>
    intro h
    by_cases hx : p x = true
    · rw [List.filter_cons_of_pos hx]
      have hnil : xs.filter p = [] := by
        by_contra hne
        obtain ⟨a, ha⟩ := List.exists_mem_of_ne_nil _ hne
        have hmem := List.mem_filter.1 ha
        obtain ⟨j, hjl⟩ := List.mem_iff_getElem?.1 hmem.1
        have h0 : (x :: xs)[0]? = some x := by simp
        have hj1 : (x :: xs)[j + 1]? = some a := by
          rw [List.getElem?_cons_succ]
          exact hjl
        have := h 0 (j + 1) x a h0 hj1 hx hmem.2
        cases this
      rw [hnil]
      simp
    · rw [List.filter_cons_of_neg (by simpa using hx)]
      apply ih
      intro j1 j2 a1 a2 h1 h2 hp1 hp2
      have hs1 : (x :: xs)[j1 + 1]? = some a1 := by
        rw [List.getElem?_cons_succ]; exact h1
      have hs2 : (x :: xs)[j2 + 1]? = some a2 := by
        rw [List.getElem?_cons_succ]; exact h2
      have := h (j1 + 1) (j2 + 1) a1 a2 hs1 hs2 hp1 hp2
      omega

/-- Under the invariant, at most one task is actively refreshing. -/
lemma active_refresh_unique {Store : Type} {env : SnapshotEnv Store}
    {scope : SnapshotScope} {σ : MState Store} (hInv : Inv env scope σ) :
    (σ.tasks.filter fun ts => ts.phase.isActiveRefresh).length ≤ 1 := by
  apply filter_length_le_one_of_unique
  intro j1 j2 a1 a2 h1 h2 hp1 hp2
  have hi1 := hInv.ownerishHasInflight j1 a1 h1 (ownerish_of_active _ hp1)
  have hi2 := hInv.ownerishHasInflight j2 a2 h2 (ownerish_of_active _ hp2)
  have : some j1 = some j2 := hi1.symm.trans hi2
  exact Option.some.injEq _ _ ▸ this

/-- In a terminal state of a nonempty run under the invariant, the traces
hold exactly one probe call (with the active configs) and exactly one
append (of its results). -/
lemma terminal_traces {Store : Type} {env : SnapshotEnv Store}
    {scope : SnapshotScope} {σ : MState Store} (hInv : Inv env scope σ)
    (hne : σ.tasks ≠ [])
    (hDone : ∀ ts ∈ σ.tasks, ts.phase.isDone = true) :
    σ.probeTrace = [scope.activeConfigs] ∧
      σ.appendTrace = [env.runProviderChecks scope.activeConfigs] := by
  obtain ⟨t0, hmem⟩ := List.exists_mem_of_ne_nil _ hne
  obtain ⟨j, hjl⟩ := List.mem_iff_getElem?.1 hmem
  have hd := hDone t0 hmem
  constructor
  · rcases hInv.probeShape with h | h
    · exact absurd hd (by
        have hq := (hInv.noProbeClean h).2.2.2 j t0 hjl
        intro hdd
        exact not_quiet_and_done _ hq hdd)
    · exact h
  · rcases hInv.appendShape with h | h
    · exact absurd hd (by
        have hq := ((hInv.noAppendClean h).2 j t0 hjl).2
        intro hdd
        exact not_preAppend_and_done _ hq hdd)
    · exact h

/-- Task-list length is invariant under one step. -/
lemma stepTask_tasks_length {Store : Type} (env : SnapshotEnv Store)
    (scope : SnapshotScope) (mode : RefreshMode) (σ : MState Store)
    (tid : Nat) :
    (stepTask env scope mode σ tid).tasks.length = σ.tasks.length := by
  unfold stepTask upd
  repeat' split
  all_goals simp [apply_ite (fun l : MState Store => l.tasks.length),
    List.length_set]

/-- Task-list length is invariant under a run. -/
lemma runCmds_tasks_length {Store : Type} (env : SnapshotEnv Store)
    (scope : SnapshotScope) (mode : RefreshMode) :
    ∀ (cmds : List Cmd) (σ : MState Store),
      (runCmds env scope mode σ cmds).tasks.length = σ.tasks.length := by
  intro cmds
  induction cmds with
  | nil => intro σ; rfl
  | cons c rest ih =>
    intro σ
    show (runCmds env scope mode (stepCmd env scope mode σ c) rest).tasks.length
      = σ.tasks.length
    rw [ih]
    exact stepTask_tasks_length env scope mode _ c.tid

/-- C1: for one scope key, when N ≥ 1 concurrent refresh calls
(`always` mode, leader, healthy election, positive poll interval, cold cache
entry) are all issued before the first refresh completes, any complete
interleaving performs exactly one probing-capability call — with the scope's
active configs — and exactly one history-store append (of its results), and
at every point of the run at most one in-flight refresh exists for the key:
later callers join the in-flight operation instead of starting a new one. -/
theorem c1_single_flight {Store : Type} (env : SnapshotEnv Store)
    (scope : SnapshotScope) (n : Nat) (store : Store) (clock lastPing : Int)
    (cmds : List Cmd)
    (hIds : scope.allowedIds ≠ []) (hActive : scope.activeConfigs ≠ [])
    (hPoll : 1 ≤ scope.pollIntervalMs)
    (hEnsure : env.ensurePollerLeadership = .ok ())
    (hLeader : env.isPollerLeader = true)
    (hN : 0 < n)
    (hTrace : ∀ k, k ≤ cmds.length →
      TraceCond (runCmds env scope RefreshMode.always
        (initState Store n store clock lastPing) (cmds.take k)))
    (hDone : ∀ ts ∈ (runCmds env scope RefreshMode.always
        (initState Store n store clock lastPing) cmds).tasks,
      ts.phase.isDone = true) :
    (runCmds env scope RefreshMode.always
        (initState Store n store clock lastPing) cmds).probeTrace =
      [scope.activeConfigs] ∧
    (runCmds env scope RefreshMode.always
        (initState Store n store clock lastPing) cmds).appendTrace =
      [env.runProviderChecks scope.activeConfigs] ∧
    ∀ k, k ≤ cmds.length →
      ((runCmds env scope RefreshMode.always
          (initState Store n store clock lastPing) (cmds.take k)).tasks.filter
        fun ts => ts.phase.isActiveRefresh).length ≤ 1 := by
  have hInvAll := inv_runCmds hIds hActive hPoll hEnsure hLeader cmds
    (initState Store n store clock lastPing)
    (inv_init env scope n store clock lastPing) hTrace
  have hInvFinal : Inv env scope (runCmds env scope RefreshMode.always
      (initState Store n store clock lastPing) cmds) := by
    have := hInvAll cmds.length (le_refl _)
    rwa [List.take_length] at this
  have hne : (runCmds env scope RefreshMode.always
      (initState Store n store clock lastPing) cmds).tasks ≠ [] := by
    have hlen := runCmds_tasks_length env scope RefreshMode.always cmds
      (initState Store n store clock lastPing)
    intro hnil
    rw [hnil] at hlen
    simp [initState] at hlen
    omega
  obtain ⟨h1, h2⟩ := terminal_traces hInvFinal hne hDone
  exact ⟨h1, h2, fun k hk => active_refresh_unique (hInvAll k hk)⟩

end SnapshotMachine

set_option maxRecDepth 40000 in
/-- C1 witness: a concrete two-caller interleaving. -/
theorem c1_single_flight_witness :
    (SnapshotMachine.runCmds machineEnv sampleScope RefreshMode.always
        (SnapshotMachine.initState Unit 2 () 0 0) c1Schedule).probeTrace =
      [sampleScope.activeConfigs] ∧
    (SnapshotMachine.runCmds machineEnv sampleScope RefreshMode.always
        (SnapshotMachine.initState Unit 2 () 0 0) c1Schedule).appendTrace =
      [machineEnv.runProviderChecks sampleScope.activeConfigs] ∧
    ∀ k, k ≤ c1Schedule.length →
      ((SnapshotMachine.runCmds machineEnv sampleScope RefreshMode.always
          (SnapshotMachine.initState Unit 2 () 0 0)
          (c1Schedule.take k)).tasks.filter
        fun ts => ts.phase.isActiveRefresh).length ≤ 1 :=
  SnapshotMachine.c1_single_flight machineEnv sampleScope 2 () 0 0 c1Schedule
    (by decide) (by decide) (by decide) rfl rfl (by decide) (by decide)
    (by decide)
